import Mathlib

/-!
Shallow embedding of the falling-sand engine of grapefizz/particulate
(src/lib.rs).  The grid is a list of rows of cells, indexed grid[y][x] as in
the source.  Array indexing in Rust panics when out of range, so grid reads
and writes are modelled as Option-valued checked operations; a none result
models a panic.  The external random source js_sys Math.random is modelled
as a stream of rational draws, each expected to lie in [0, 1); every draw
advances an explicit index k into the stream.
-/

namespace Particulate

/-- material tag of one grid cell, from the Rust enum Cell. -/
inductive Cell
  | Empty
  | Sand
deriving DecidableEq, Repr

/-- brush selector, from the Rust enum Tool. -/
inductive Tool
  | Sand
  | Erase
deriving DecidableEq, Repr

/-- the grid, rows of cells; the source uses a HEIGHT by WIDTH array grid[y][x]. -/
abbrev Grid := List (List Cell)

/-- dimension invariant carried by the Rust array type of the grid field. -/
def Dims (W H : Nat) (g : Grid) : Prop := g.length = H ∧ ∀ row ∈ g, row.length = W

instance (W H : Nat) (g : Grid) : Decidable (Dims W H g) := by
  unfold Dims
  infer_instance

/-- checked read grid[y][x]; none models a panicking out-of-range index. -/
def getCell? (g : Grid) (y x : Nat) : Option Cell :=
  g[y]?.bind (fun row => row[x]?)

/-- total read used to state properties; out-of-range reads give Empty. -/
def getCell (g : Grid) (y x : Nat) : Cell := (g.getD y []).getD x Cell.Empty

/-- unchecked write used to describe result grids; a no-op out of range. -/
def setCell (g : Grid) (y x : Nat) (c : Cell) : Grid := g.set y ((g.getD y []).set x c)

/-- checked write grid[y][x] = c; none models a panicking out-of-range index. -/
def setCell? (g : Grid) (y x : Nat) (c : Cell) : Option Grid :=
  g[y]?.bind (fun row => if x < row.length then some (g.set y (row.set x c)) else none)

/-- Vec::swap on the shuffled column list; both positions are read before either write. -/
def listSwap (xs : List Nat) (i j : Nat) : List Nat :=
  (xs.set i (xs.getD j 0)).set j (xs.getD i 0)

/-- one draw of the shuffle: j = floor(random * (i + 1)), then swap positions i and j. -/
def shuffleStep (rng : Nat → ℚ) (xs : List Nat) (k i : Nat) : List Nat × Nat :=
  (listSwap xs i (⌊rng k * ((i : ℚ) + 1)⌋).toNat, k + 1)

/-- fold of the shuffle over the index list. -/
def shuffleGo (rng : Nat → ℚ) : List Nat → List Nat → Nat → List Nat × Nat
  | [], xs, k => (xs, k)
  | i :: is, xs, k =>
      match shuffleStep rng xs k i with
      | (xs1, k1) => shuffleGo rng is xs1 k1

/-- index list [W-1, ..., 1] of the shuffle loop for i in (1..WIDTH).rev(). -/
def iList (W : Nat) : List Nat := (List.range' 1 (W - 1)).reverse

/-- the per-row shuffle of the column order in World::step. -/
def shuffleRow (rng : Nat → ℚ) (W : Nat) (xs : List Nat) (k : Nat) : List Nat × Nat :=
  shuffleGo rng (iList W) xs k

/-- the diagonal loop of World::step: for (dx, dy) in dirs, under the guard
nx >= 0 and nx < W and ny < H, move into the first Empty cell found; the
returned Bool is the negation of the source's blocked flag. -/
def tryDiag (W H : Nat) (g : Grid) (y x : Nat) : List (Int × Int) → Option (Grid × Bool)
  | [] => some (g, false)
  | (dx, dy) :: rest =>
      let nx : Int := (x : Int) + dx
      let ny : Int := (y : Int) + dy
      if 0 ≤ nx ∧ nx < (W : Int) ∧ ny < (H : Int) then
        match getCell? g ny.toNat nx.toNat with
        | none => none
        | some c =>
            if c = Cell.Empty then
              match setCell? g ny.toNat nx.toNat Cell.Sand with
              | none => none
              | some g1 =>
                  match setCell? g1 y x Cell.Empty with
                  | none => none
                  | some g2 => some (g2, true)
            else tryDiag W H g y x rest
      else tryDiag W H g y x rest

/-- the lateral roll loop of World::step: for dx in sides, under the guard
nx >= 0 and nx < W, move into the first Empty same-row cell found. -/
def trySides (W : Nat) (g : Grid) (y x : Nat) : List Int → Option Grid
  | [] => some g
  | dx :: rest =>
      let nx : Int := (x : Int) + dx
      if 0 ≤ nx ∧ nx < (W : Int) then
        match getCell? g y nx.toNat with
        | none => none
        | some c =>
            if c = Cell.Empty then
              match setCell? g y nx.toNat Cell.Sand with
              | none => none
              | some g1 => setCell? g1 y x Cell.Empty
            else trySides W g y x rest
      else trySides W g y x rest

/-- transition of one examined cell (y, x) in World::step, threading the
index k of the next unread draw of the random stream. -/
def processCell (W H : Nat) (rng : Nat → ℚ) (g : Grid) (k y x : Nat) : Option (Grid × Nat) :=
  match getCell? g y x with
  | none => none
  | some c =>
      if c = Cell.Sand then
        match getCell? g (y + 1) x with
        | none => none
        | some below =>
            if below = Cell.Empty then
              match setCell? g (y + 1) x Cell.Sand with
              | none => none
              | some g1 =>
                  match setCell? g1 y x Cell.Empty with
                  | none => none
                  | some g2 => some (g2, k)
            else
              match tryDiag W H g y x
                  (if rng k < 1 / 2 then [(1, 1), (-1, 1)] else [(-1, 1), (1, 1)]) with
              | none => none
              | some (g1, moved) =>
                  if moved then some (g1, k + 1)
                  else
                    if rng (k + 1) < 5 / 100 then
                      match trySides W g1 y x
                          (if rng (k + 2) < 1 / 2 then [1, -1] else [-1, 1]) with
                      | none => none
                      | some g2 => some (g2, k + 3)
                    else some (g1, k + 2)
      else some (g, k)

/-- inner loop of World::step over the shuffled column order of one row. -/
def processCells (W H : Nat) (rng : Nat → ℚ) (y : Nat) :
    List Nat → Grid → Nat → Option (Grid × Nat)
  | [], g, k => some (g, k)
  | x :: xs, g, k =>
      match processCell W H rng g k y x with
      | none => none
      | some (g1, k1) => processCells W H rng y xs g1 k1

/-- row list [H-2, ..., 0] of the outer loop for y in (0..HEIGHT-1).rev(). -/
def yList (H : Nat) : List Nat := (List.range (H - 1)).reverse

/-- outer loop of World::step: shuffle the column order, then process the row;
the column list xs persists across rows as in the source. -/
def stepRows (W H : Nat) (rng : Nat → ℚ) :
    List Nat → Grid → List Nat → Nat → Option (Grid × List Nat × Nat)
  | [], g, xs, k => some (g, xs, k)
  | y :: ys, g, xs, k =>
      match shuffleRow rng W xs k with
      | (xs1, k1) =>
          match processCells W H rng y xs1 g k1 with
          | none => none
          | some (g1, k2) => stepRows W H rng ys g1 xs1 k2

/-- World::step, one tick; W and H stand for the WIDTH and HEIGHT constants
(200 and 150 in the source). -/
def step (W H : Nat) (rng : Nat → ℚ) (g : Grid) (k : Nat) : Option (Grid × Nat) :=
  match stepRows W H rng (yList H) g (List.range W) k with
  | none => none
  | some (g1, _, k1) => some (g1, k1)

/-- n successive World::step calls against the same random stream. -/
def stepN (W H : Nat) (rng : Nat → ℚ) : Nat → Grid → Nat → Option (Grid × Nat)
  | 0, g, k => some (g, k)
  | n + 1, g, k =>
      match step W H rng g k with
      | none => none
      | some (g1, k1) => stepN W H rng n g1 k1

/-- cell value deposited by a tool in World::paint. -/
def toolCell : Tool → Cell
  | Tool.Sand => Cell.Sand
  | Tool.Erase => Cell.Empty

/-- offsets [-b, ..., b] of one paint loop, for dy in -(brush)..=(brush). -/
def offList (b : Nat) : List Int :=
  (List.range (2 * b + 1)).map (fun n : Nat => (n : Int) - (b : Int))

/-- body of the paint loops for one offset pair (dy, dx). -/
def paintOne (W H x y : Nat) (r2 : ℚ) (tool : Tool) (g : Grid) (dy dx : Int) : Option Grid :=
  let nx : Int := (x : Int) + dx
  let ny : Int := (y : Int) + dy
  if 0 ≤ nx ∧ 0 ≤ ny ∧ nx < (W : Int) ∧ ny < (H : Int) then
    if ((dx : ℚ) + 1 / 2) ^ 2 + ((dy : ℚ) + 1 / 2) ^ 2 ≤ r2 then
      setCell? g ny.toNat nx.toNat (toolCell tool)
    else some g
  else some g

/-- fold of the paint body over the iteration order of the nested loops. -/
def paintGo (W H x y : Nat) (r2 : ℚ) (tool : Tool) : List (Int × Int) → Grid → Option Grid
  | [], g => some g
  | (dy, dx) :: rest, g =>
      match paintOne W H x y r2 tool g dy dx with
      | none => none
      | some g1 => paintGo W H x y r2 tool rest g1

/-- iteration order of the two nested paint loops: dy outer, dx inner, ascending. -/
def paintPairs (b : Nat) : List (Int × Int) :=
  (offList b).flatMap (fun dy => (offList b).map (fun dx => (dy, dx)))

/-- World::paint: stamp a disc of radius brush / 2 centered at (x, y). -/
def paint (W H : Nat) (g : Grid) (x y brush : Nat) (tool : Tool) : Option Grid :=
  paintGo W H x y (((brush : ℚ) / 2) ^ 2) tool (paintPairs brush) g

/-- Boolean test for the Sand tag. -/
def isSand : Cell → Bool
  | Cell.Sand => true
  | Cell.Empty => false

/-- count of Sand cells in one row. -/
def rowCount (row : List Cell) : Nat := row.countP isSand

/-- count of Sand cells in the row of index y. -/
def rowSand (g : Grid) (y : Nat) : Nat := rowCount (g.getD y [])

/-- total count of Sand cells in the grid. -/
def sandCount (g : Grid) : Nat := (g.map rowCount).sum

/-- count of Sand cells in rows of index t and greater. -/
def countFrom (g : Grid) (t : Nat) : Nat := sandCount (g.drop t)

/-- a random stream is valid when every draw lies in [0, 1), as Math.random does. -/
def ValidRng (rng : Nat → ℚ) : Prop := ∀ n, 0 ≤ rng n ∧ rng n < 1

/-- the all-Empty grid of the given dimensions. -/
def emptyGrid (W H : Nat) : Grid := List.replicate H (List.replicate W Cell.Empty)

/-- a grid coordinate indexable without a panic, relative to the list representation. -/
def InBnd (g : Grid) (y x : Nat) : Prop := y < g.length ∧ x < (g.getD y []).length

/-! ### basic access lemmas -/

theorem getD_of_lt {α : Type} (l : List α) (n : Nat) (d : α) (h : n < l.length) :
    l.getD n d = l[n] := by
  rw [List.getD_eq_getElem?_getD, List.getElem?_eq_getElem h]
  rfl

theorem getD_of_le {α : Type} (l : List α) (n : Nat) (d : α) (h : l.length ≤ n) :
    l.getD n d = d := by
  rw [List.getD_eq_getElem?_getD, List.getElem?_eq_none h]
  rfl

theorem getD_set_ne {α : Type} (l : List α) (i j : Nat) (a d : α) (h : i ≠ j) :
    (l.set i a).getD j d = l.getD j d := by
  rw [List.getD_eq_getElem?_getD, List.getD_eq_getElem?_getD, List.getElem?_set_ne h]

theorem getD_set_self {α : Type} (l : List α) (i : Nat) (a d : α) (h : i < l.length) :
    (l.set i a).getD i d = a := by
  rw [List.getD_eq_getElem?_getD, List.getElem?_set_self h]
  rfl

theorem setCell_oob (g : Grid) (y x : Nat) (c : Cell) (h : g.length ≤ y) :
    setCell g y x c = g := by
  unfold setCell
  exact List.set_eq_of_length_le h

theorem getCell?_eq_some_iff (g : Grid) (y x : Nat) (c : Cell) :
    getCell? g y x = some c ↔ InBnd g y x ∧ getCell g y x = c := by
  unfold getCell? InBnd getCell
  rcases hy : g[y]? with _ | row
  · simp only [List.getElem?_eq_none_iff] at hy
    simp only [Option.none_bind]
    constructor
    · intro h; cases h
    · rintro ⟨⟨h1, _⟩, _⟩; omega
  · have hylt : y < g.length := by
      by_contra hc
      rw [List.getElem?_eq_none (by omega)] at hy
      cases hy
    have hrow : g.getD y [] = row := by
      rw [List.getD_eq_getElem?_getD, hy]; rfl
    rw [hrow, Option.some_bind]
    rcases hx : row[x]? with _ | c'
    · simp only [List.getElem?_eq_none_iff] at hx
      constructor
      · intro h; cases h
      · rintro ⟨⟨_, h2⟩, _⟩; omega
    · have hxlt : x < row.length := by
        by_contra hc
        rw [List.getElem?_eq_none (by omega)] at hx
        cases hx
      have : row.getD x Cell.Empty = c' := by
        rw [List.getD_eq_getElem?_getD, hx]; rfl
      rw [this]
      constructor
      · intro h; cases h; exact ⟨⟨hylt, hxlt⟩, rfl⟩
      · rintro ⟨_, rfl⟩; rfl

theorem getCell?_isSome_iff (g : Grid) (y x : Nat) :
    (getCell? g y x).isSome ↔ InBnd g y x := by
  constructor
  · intro h
    rcases Option.isSome_iff_exists.mp h with ⟨c, hc⟩
    exact ((getCell?_eq_some_iff g y x c).mp hc).1
  · intro h
    rw [(getCell?_eq_some_iff g y x (getCell g y x)).mpr ⟨h, rfl⟩]
    rfl

theorem setCell?_eq_some_iff (g : Grid) (y x : Nat) (c : Cell) (g' : Grid) :
    setCell? g y x c = some g' ↔ InBnd g y x ∧ g' = setCell g y x c := by
  unfold setCell? InBnd setCell
  rcases hy : g[y]? with _ | row
  · simp only [List.getElem?_eq_none_iff] at hy
    simp only [Option.none_bind]
    constructor
    · intro h; cases h
    · rintro ⟨⟨h1, _⟩, _⟩; omega
  · have hylt : y < g.length := by
      by_contra hc
      rw [List.getElem?_eq_none (by omega)] at hy
      cases hy
    have hrow : g.getD y [] = row := by
      rw [List.getD_eq_getElem?_getD, hy]; rfl
    rw [hrow, Option.some_bind]
    by_cases hx : x < row.length
    · simp only [if_pos hx]
      constructor
      · intro h; cases h; exact ⟨⟨hylt, hx⟩, rfl⟩
      · rintro ⟨_, rfl⟩; rfl
    · simp only [if_neg hx]
      constructor
      · intro h; cases h
      · rintro ⟨⟨_, h2⟩, _⟩; omega

theorem setCell?_isSome_iff (g : Grid) (y x : Nat) (c : Cell) :
    (setCell? g y x c).isSome ↔ InBnd g y x := by
  constructor
  · intro h
    rcases Option.isSome_iff_exists.mp h with ⟨g', hg⟩
    exact ((setCell?_eq_some_iff g y x c g').mp hg).1
  · intro h
    rw [(setCell?_eq_some_iff g y x c (setCell g y x c)).mpr ⟨h, rfl⟩]
    rfl

theorem length_setCell (g : Grid) (y x : Nat) (c : Cell) :
    (setCell g y x c).length = g.length := by
  unfold setCell; exact List.length_set g y ((g.getD y []).set x c)

theorem getD_setCell_ne (g : Grid) (y x : Nat) (c : Cell) (r : Nat) (h : r ≠ y) :
    (setCell g y x c).getD r [] = g.getD r [] := by
  unfold setCell
  exact getD_set_ne g y r _ [] (fun hh => h hh.symm)

theorem getD_setCell_self (g : Grid) (y x : Nat) (c : Cell) (h : y < g.length) :
    (setCell g y x c).getD y [] = (g.getD y []).set x c := by
  unfold setCell
  exact getD_set_self g y _ [] h

theorem getCell_setCell_self (g : Grid) (y x : Nat) (c : Cell) (h : InBnd g y x) :
    getCell (setCell g y x c) y x = c := by
  unfold getCell
  rw [getD_setCell_self g y x c h.1]
  exact getD_set_self _ x c Cell.Empty h.2

theorem getCell_setCell_ne (g : Grid) (y x : Nat) (c : Cell) (r s : Nat)
    (h : r ≠ y ∨ s ≠ x) : getCell (setCell g y x c) r s = getCell g r s := by
  by_cases hy : y < g.length
  · unfold getCell
    by_cases hr : r = y
    · subst hr
      rcases h with h | h
      · exact absurd rfl h
      · rw [getD_setCell_self g r x c hy]
        exact congrArg (fun l => List.getD l s Cell.Empty) rfl ▸
          getD_set_ne _ x s c Cell.Empty (fun hh => h hh.symm)
    · rw [getD_setCell_ne g y x c r hr]
  · rw [setCell_oob g y x c (by omega)]

theorem InBnd_setCell (g : Grid) (a b : Nat) (c : Cell) (y x : Nat) :
    InBnd (setCell g a b c) y x ↔ InBnd g y x := by
  by_cases ha : a < g.length
  · unfold InBnd
    rw [length_setCell]
    by_cases hy : y = a
    · subst hy
      rw [getD_setCell_self g y b c ha, List.length_set]
    · rw [getD_setCell_ne g a b c y hy]
  · rw [setCell_oob g a b c (by omega)]

theorem Dims_setCell (W H : Nat) (g : Grid) (y x : Nat) (c : Cell) (h : Dims W H g) :
    Dims W H (setCell g y x c) := by
  by_cases hy : y < g.length
  · obtain ⟨h1, h2⟩ := h
    constructor
    · rw [length_setCell]; exact h1
    · intro row hrow
      unfold setCell at hrow
      rcases List.mem_or_eq_of_mem_set hrow with hmem | heq
      · exact h2 row hmem
      · subst heq
        rw [List.length_set, getD_of_lt g y [] hy]
        exact h2 _ (List.getElem_mem hy)
  · rw [setCell_oob g y x c (by omega)]
    exact h

theorem InBnd_iff_of_Dims (W H : Nat) (g : Grid) (y x : Nat) (h : Dims W H g) :
    InBnd g y x ↔ y < H ∧ x < W := by
  obtain ⟨h1, h2⟩ := h
  unfold InBnd
  rw [h1]
  by_cases hy : y < H
  · have : (g.getD y []).length = W := by
      rw [getD_of_lt g y [] (by omega)]
      exact h2 _ (List.getElem_mem (by omega))
    rw [this]
  · constructor
    · rintro ⟨hh, _⟩; omega
    · rintro ⟨hh, _⟩; omega

theorem getCell_emptyGrid (W H y x : Nat) : getCell (emptyGrid W H) y x = Cell.Empty := by
  unfold getCell emptyGrid
  by_cases hy : y < H
  · rw [getD_of_lt _ y [] (by simpa using hy), List.getElem_replicate]
    by_cases hx : x < W
    · rw [getD_of_lt _ x _ (by simpa using hx), List.getElem_replicate]
    · rw [getD_of_le _ x _ (by simpa using hx)]
  · rw [getD_of_le _ y [] (by simpa using hy)]
    rfl

theorem Dims_emptyGrid (W H : Nat) : Dims W H (emptyGrid W H) := by
  constructor
  · exact List.length_replicate H _
  · intro row hrow
    rw [List.eq_of_mem_replicate hrow]
    exact List.length_replicate W _

theorem gridExt (W H : Nat) (g1 g2 : Grid) (h1 : Dims W H g1) (h2 : Dims W H g2)
    (h : ∀ y < H, ∀ x < W, getCell g1 y x = getCell g2 y x) : g1 = g2 := by
  apply List.ext_getElem
  · rw [h1.1, h2.1]
  · intro y hy1 hy2
    apply List.ext_getElem
    · rw [h1.2 _ (List.getElem_mem hy1), h2.2 _ (List.getElem_mem hy2)]
    · intro x hx1 hx2
      have hyH : y < H := by rw [← h1.1]; exact hy1
      have hxW : x < W := by rw [← h1.2 _ (List.getElem_mem hy1)]; exact hx1
      have e1 : getCell g1 y x = g1[y][x] := by
        unfold getCell
        rw [getD_of_lt g1 y [] hy1, getD_of_lt _ x _ hx1]
      have e2 : getCell g2 y x = g2[y][x] := by
        unfold getCell
        rw [getD_of_lt g2 y [] hy2, getD_of_lt _ x _ hx2]
      rw [← e1, ← e2]
      exact h y hyH x hxW

/-! ### counting lemmas -/

theorem rowCount_set_add (row : List Cell) (x : Nat) (c : Cell) (h : x < row.length) :
    rowCount (row.set x c) + (if isSand (row.getD x Cell.Empty) then 1 else 0)
      = rowCount row + (if isSand c then 1 else 0) := by
  unfold rowCount
  rw [getD_of_lt row x Cell.Empty h, List.countP_set isSand row x c h]
  have hle : (if isSand row[x] = true then 1 else 0) ≤ List.countP isSand row := by
    by_cases hs : isSand row[x] = true
    · simpa [hs] using List.countP_pos_iff.mpr ⟨row[x], List.getElem_mem h, hs⟩
    · simp [hs]
  omega

theorem natSum_set_add (l : List Nat) (n a : Nat) (h : n < l.length) :
    (l.set n a).sum + l[n] = l.sum + a := by
  induction l generalizing n with
  | nil => cases h
  | cons b t ih =>
      cases n with
      | zero => simp [List.sum_cons]; omega
      | succ m =>
          have hm : m < t.length := by simpa using h
          have := ih m hm
          simp only [List.set, List.sum_cons, List.getElem_cons_succ]
          omega

theorem sandCount_set_add (g : Grid) (y : Nat) (row : List Cell) (h : y < g.length) :
    sandCount (g.set y row) + rowCount (g.getD y []) = sandCount g + rowCount row := by
  unfold sandCount
  rw [List.map_set]
  have hlen : y < (g.map rowCount).length := by simpa using h
  have := natSum_set_add (g.map rowCount) y (rowCount row) hlen
  rw [List.getElem_map] at this
  rw [getD_of_lt g y [] h]
  exact this

theorem sandCount_setCell_add (g : Grid) (y x : Nat) (c : Cell) (h : InBnd g y x) :
    sandCount (setCell g y x c) + (if isSand (getCell g y x) then 1 else 0)
      = sandCount g + (if isSand c then 1 else 0) := by
  unfold setCell
  have e1 := sandCount_set_add g y ((g.getD y []).set x c) h.1
  have e2 := rowCount_set_add (g.getD y []) x c h.2
  have hg : getCell g y x = (g.getD y []).getD x Cell.Empty := rfl
  rw [hg]
  omega

/-! ### the move relation: one sand grain moved into a previously empty cell -/

/-- the effect of the source's move idiom: destination set to Sand, source to
Empty, with the source holding Sand and the destination Empty beforehand. -/
def IsMove (g g' : Grid) (y1 x1 y2 x2 : Nat) : Prop :=
  getCell g y1 x1 = Cell.Sand ∧ getCell g y2 x2 = Cell.Empty ∧
  InBnd g y1 x1 ∧ InBnd g y2 x2 ∧ ¬(y1 = y2 ∧ x1 = x2) ∧
  g' = setCell (setCell g y2 x2 Cell.Sand) y1 x1 Cell.Empty

theorem IsMove.sand_count {g g' : Grid} {y1 x1 y2 x2 : Nat}
    (h : IsMove g g' y1 x1 y2 x2) : sandCount g' = sandCount g := by
  obtain ⟨hs, he, hb1, hb2, hne, rfl⟩ := h
  have hne' : y1 ≠ y2 ∨ x1 ≠ x2 := by tauto
  have hb1' : InBnd (setCell g y2 x2 Cell.Sand) y1 x1 :=
    (InBnd_setCell g y2 x2 Cell.Sand y1 x1).mpr hb1
  have e1 := sandCount_setCell_add (setCell g y2 x2 Cell.Sand) y1 x1 Cell.Empty hb1'
  have e2 := sandCount_setCell_add g y2 x2 Cell.Sand hb2
  rw [getCell_setCell_ne g y2 x2 Cell.Sand y1 x1 hne', hs] at e1
  rw [he] at e2
  simp only [isSand, if_true, if_false] at e1 e2
  omega

theorem IsMove.len {g g' : Grid} {y1 x1 y2 x2 : Nat}
    (h : IsMove g g' y1 x1 y2 x2) : g'.length = g.length := by
  obtain ⟨_, _, _, _, _, rfl⟩ := h
  rw [length_setCell, length_setCell]

theorem IsMove.getD_other {g g' : Grid} {y1 x1 y2 x2 : Nat}
    (h : IsMove g g' y1 x1 y2 x2) (r : Nat) (hr1 : r ≠ y1) (hr2 : r ≠ y2) :
    g'.getD r [] = g.getD r [] := by
  obtain ⟨_, _, _, _, _, rfl⟩ := h
  rw [getD_setCell_ne _ y1 x1 _ r hr1, getD_setCell_ne _ y2 x2 _ r hr2]

theorem IsMove.dims {W H : Nat} {g g' : Grid} {y1 x1 y2 x2 : Nat}
    (h : IsMove g g' y1 x1 y2 x2) (hd : Dims W H g) : Dims W H g' := by
  obtain ⟨_, _, _, _, _, rfl⟩ := h
  exact Dims_setCell W H _ y1 x1 Cell.Empty (Dims_setCell W H g y2 x2 Cell.Sand hd)

theorem IsMove.row_pair {g g' : Grid} {y x1 y2 x2 : Nat}
    (h : IsMove g g' y x1 y2 x2) (hy2 : y2 = y ∨ y2 = y + 1) :
    rowSand g' y + rowSand g' (y + 1) = rowSand g y + rowSand g (y + 1) := by
  obtain ⟨hs, he, hb1, hb2, hne, rfl⟩ := h
  have hgy : getCell g y x1 = (g.getD y []).getD x1 Cell.Empty := rfl
  rcases hy2 with h2 | h2
  · -- lateral move within row y
    rw [h2] at he hb2 hne ⊢
    have hx12 : x1 ≠ x2 := by tauto
    have hgy2 : getCell g y x2 = (g.getD y []).getD x2 Cell.Empty := rfl
    unfold rowSand
    have hrow1 : (setCell g y x2 Cell.Sand).getD y [] = (g.getD y []).set x2 Cell.Sand :=
      getD_setCell_self g y x2 Cell.Sand hb1.1
    have hrowF : (setCell (setCell g y x2 Cell.Sand) y x1 Cell.Empty).getD y []
        = ((g.getD y []).set x2 Cell.Sand).set x1 Cell.Empty := by
      rw [getD_setCell_self _ y x1 Cell.Empty (by rw [length_setCell]; exact hb1.1), hrow1]
    have hnext : (setCell (setCell g y x2 Cell.Sand) y x1 Cell.Empty).getD (y + 1) []
        = g.getD (y + 1) [] := by
      rw [getD_setCell_ne _ y x1 _ (y + 1) (by omega),
        getD_setCell_ne _ y x2 _ (y + 1) (by omega)]
    rw [hrowF, hnext]
    have e1 := rowCount_set_add (g.getD y []) x2 Cell.Sand hb2.2
    rw [← hgy2, he] at e1
    have hx1lt : x1 < ((g.getD y []).set x2 Cell.Sand).length := by
      rw [List.length_set]; exact hb1.2
    have e2 := rowCount_set_add ((g.getD y []).set x2 Cell.Sand) x1 Cell.Empty hx1lt
    have hkeep : ((g.getD y []).set x2 Cell.Sand).getD x1 Cell.Empty
        = (g.getD y []).getD x1 Cell.Empty :=
      getD_set_ne _ x2 x1 Cell.Sand Cell.Empty (fun hh => hx12 hh.symm)
    rw [hkeep, ← hgy, hs] at e2
    simp only [isSand, if_true, if_false] at e1 e2
    omega
  · -- move down into row y + 1
    subst h2
    have hgy2 : getCell g (y + 1) x2 = (g.getD (y + 1) []).getD x2 Cell.Empty := rfl
    unfold rowSand
    have hrowY : (setCell (setCell g (y + 1) x2 Cell.Sand) y x1 Cell.Empty).getD y []
        = (g.getD y []).set x1 Cell.Empty := by
      rw [getD_setCell_self _ y x1 Cell.Empty (by rw [length_setCell]; exact hb1.1),
        getD_setCell_ne _ (y + 1) x2 _ y (by omega)]
    have hrowY1 : (setCell (setCell g (y + 1) x2 Cell.Sand) y x1 Cell.Empty).getD (y + 1) []
        = (g.getD (y + 1) []).set x2 Cell.Sand := by
      rw [getD_setCell_ne _ y x1 _ (y + 1) (by omega),
        getD_setCell_self g (y + 1) x2 Cell.Sand hb2.1]
    rw [hrowY, hrowY1]
    have e1 := rowCount_set_add (g.getD y []) x1 Cell.Empty hb1.2
    rw [← hgy, hs] at e1
    have e2 := rowCount_set_add (g.getD (y + 1) []) x2 Cell.Sand hb2.2
    rw [← hgy2, he] at e2
    simp only [isSand, if_true, if_false] at e1 e2
    omega

/-! ### case analysis of the transition of one cell -/

theorem tryDiag_cases (W H : Nat) (g : Grid) (y x : Nat) (dirs : List (Int × Int))
    (g1 : Grid) (moved : Bool)
    (hsrc : getCell g y x = Cell.Sand)
    (hdy : ∀ p ∈ dirs, p.2 = 1)
    (h : tryDiag W H g y x dirs = some (g1, moved)) :
    (moved = false ∧ g1 = g ∧ ∀ p ∈ dirs,
        ¬(0 ≤ (x : Int) + p.1 ∧ (x : Int) + p.1 < (W : Int) ∧ (y : Int) + p.2 < (H : Int)) ∨
          getCell g ((y : Int) + p.2).toNat ((x : Int) + p.1).toNat ≠ Cell.Empty) ∨
    (moved = true ∧ ∃ dx : Int, (dx, 1) ∈ dirs ∧
        (0 ≤ (x : Int) + dx ∧ (x : Int) + dx < (W : Int) ∧ (y : Int) + 1 < (H : Int)) ∧
        IsMove g g1 y x (y + 1) ((x : Int) + dx).toNat) := by
  induction dirs with
  | nil =>
      simp only [tryDiag, Option.some.injEq, Prod.mk.injEq] at h
      exact Or.inl ⟨h.2.symm, h.1.symm, by simp⟩
  | cons p rest ih =>
      obtain ⟨dx, dy⟩ := p
      have hdy1 : dy = 1 := hdy (dx, dy) (List.mem_cons_self _ _)
      subst hdy1
      have htn : ((y : Int) + 1).toNat = y + 1 := by omega
      simp only [tryDiag] at h
      split at h
      · rename_i hguard
        split at h
        · rename_i hnone
          cases h
        · rename_i c hc
          split at h
          · rename_i hce
            subst hce
            split at h
            · rename_i hnone
              cases h
            · rename_i ga hga
              split at h
              · rename_i hnone
                cases h
              · rename_i gb hgb
                simp only [Option.some.injEq, Prod.mk.injEq] at h
                obtain ⟨hg1, hmv⟩ := h
                subst hg1
                refine Or.inr ⟨hmv.symm, dx, List.mem_cons_self _ _, hguard, ?_⟩
                obtain ⟨hbt, hget⟩ := (getCell?_eq_some_iff g _ _ _).mp hc
                obtain ⟨hba, hga'⟩ := (setCell?_eq_some_iff g _ _ _ _).mp hga
                obtain ⟨hbb, hgb'⟩ := (setCell?_eq_some_iff ga _ _ _ _).mp hgb
                subst hga'
                have hbx : InBnd g y x := (InBnd_setCell g _ _ Cell.Sand y x).mp hbb
                rw [htn] at hget hba hgb'
                exact ⟨hsrc, hget, hbx, hba, by omega, hgb'⟩
          · rename_i hce
            rcases ih (fun q hq => hdy q (List.mem_cons_of_mem _ hq)) h with
              ⟨hm, hg, hall⟩ | ⟨hm, dx', hmem, hcond, hmv⟩
            · refine Or.inl ⟨hm, hg, ?_⟩
              intro q hq
              rcases List.mem_cons.mp hq with heq | hq'
              · subst heq
                right
                rw [(getCell?_eq_some_iff g _ _ _).mp hc |>.2]
                exact hce
              · exact hall q hq'
            · exact Or.inr ⟨hm, dx', List.mem_cons_of_mem _ hmem, hcond, hmv⟩
      · rename_i hguard
        rcases ih (fun q hq => hdy q (List.mem_cons_of_mem _ hq)) h with
          ⟨hm, hg, hall⟩ | ⟨hm, dx', hmem, hcond, hmv⟩
        · refine Or.inl ⟨hm, hg, ?_⟩
          intro q hq
          rcases List.mem_cons.mp hq with heq | hq'
          · subst heq
            exact Or.inl hguard
          · exact hall q hq'
        · exact Or.inr ⟨hm, dx', List.mem_cons_of_mem _ hmem, hcond, hmv⟩

theorem trySides_cases (W : Nat) (g : Grid) (y x : Nat) (sides : List Int) (g1 : Grid)
    (hsrc : getCell g y x = Cell.Sand)
    (hdx : ∀ d ∈ sides, d = 1 ∨ d = -1)
    (h : trySides W g y x sides = some g1) :
    g1 = g ∨
    (∃ d ∈ sides, (0 ≤ (x : Int) + d ∧ (x : Int) + d < (W : Int)) ∧
        ((x : Int) + d).toNat ≠ x ∧ IsMove g g1 y x y ((x : Int) + d).toNat) := by
  induction sides with
  | nil =>
      simp only [trySides, Option.some.injEq] at h
      exact Or.inl h.symm
  | cons d rest ih =>
      simp only [trySides] at h
      split at h
      · rename_i hguard
        split at h
        · rename_i hnone
          cases h
        · rename_i c hc
          split at h
          · rename_i hce
            subst hce
            split at h
            · rename_i hnone
              cases h
            · rename_i ga hga
              obtain ⟨hbt, hget⟩ := (getCell?_eq_some_iff g _ _ _).mp hc
              obtain ⟨hba, hga'⟩ := (setCell?_eq_some_iff g _ _ _ _).mp hga
              obtain ⟨hbb, hgb'⟩ := (setCell?_eq_some_iff ga _ _ _ _).mp h
              subst hga'
              have hbx : InBnd g y x := (InBnd_setCell g _ _ Cell.Sand y x).mp hbb
              have hnex : ((x : Int) + d).toNat ≠ x := by
                rcases hdx d (List.mem_cons_self _ _) with h1 | h1 <;> subst h1 <;> omega
              refine Or.inr ⟨d, List.mem_cons_self _ _, hguard, hnex, ?_⟩
              exact ⟨hsrc, hget, hbx, hba, fun hcon => hnex hcon.2.symm, hgb'⟩
          · rename_i hce
            rcases ih (fun q hq => hdx q (List.mem_cons_of_mem _ hq)) h with hg | hmv
            · exact Or.inl hg
            · obtain ⟨d', hmem, hcond, hnex, hmv⟩ := hmv
              exact Or.inr ⟨d', List.mem_cons_of_mem _ hmem, hcond, hnex, hmv⟩
      · rename_i hguard
        rcases ih (fun q hq => hdx q (List.mem_cons_of_mem _ hq)) h with hg | hmv
        · exact Or.inl hg
        · obtain ⟨d', hmem, hcond, hnex, hmv⟩ := hmv
          exact Or.inr ⟨d', List.mem_cons_of_mem _ hmem, hcond, hnex, hmv⟩

theorem processCell_cases (W H : Nat) (rng : Nat → ℚ) (g : Grid) (k y x : Nat)
    (g' : Grid) (k' : Nat) (h : processCell W H rng g k y x = some (g', k')) :
    g' = g ∨
    (∃ x2, IsMove g g' y x (y + 1) x2) ∨
    (∃ x2, x2 ≠ x ∧ IsMove g g' y x y x2) := by
  unfold processCell at h
  split at h
  · cases h
  · rename_i c hget
    split at h
    · rename_i hc
      subst hc
      have hsrc : getCell g y x = Cell.Sand := ((getCell?_eq_some_iff g y x _).mp hget).2
      split at h
      · cases h
      · rename_i below hbelow
        split at h
        · rename_i hbe
          subst hbe
          split at h
          · cases h
          · rename_i ga hga
            split at h
            · cases h
            · rename_i gb hgb
              simp only [Option.some.injEq, Prod.mk.injEq] at h
              obtain ⟨hg, _⟩ := h
              subst hg
              obtain ⟨hba, hga'⟩ := (setCell?_eq_some_iff g _ _ _ _).mp hga
              obtain ⟨hbb, hgb'⟩ := (setCell?_eq_some_iff ga _ _ _ _).mp hgb
              subst hga'
              have hbx : InBnd g y x := (InBnd_setCell g _ _ Cell.Sand y x).mp hbb
              have hemp : getCell g (y + 1) x = Cell.Empty :=
                ((getCell?_eq_some_iff g (y + 1) x _).mp hbelow).2
              exact Or.inr (Or.inl ⟨x, hsrc, hemp, hbx, hba, by omega, hgb'⟩)
        · rename_i hbe
          have hdy : ∀ p ∈ (if rng k < 1 / 2 then [((1 : Int), (1 : Int)), (-1, 1)]
              else [(-1, 1), (1, 1)]), p.2 = 1 := by
            split <;> simp
          split at h
          · cases h
          · rename_i g1 moved hdiag
            cases moved
            case true =>
              -- the diagonal attempt moved the grain
              rw [if_pos rfl] at h
              simp only [Option.some.injEq, Prod.mk.injEq] at h
              rw [← h.1]
              rcases tryDiag_cases W H g y x _ g1 true hsrc hdy hdiag with
                ⟨hf, _, _⟩ | ⟨_, dx', _, _, hmov⟩
              · cases hf
              · exact Or.inr (Or.inl ⟨((x : Int) + dx').toNat, hmov⟩)
            case false =>
            -- blocked diagonally as well
            rw [if_neg Bool.false_ne_true] at h
            have hg1 : g1 = g := by
              rcases tryDiag_cases W H g y x _ g1 false hsrc hdy hdiag with
                ⟨_, hg, _⟩ | ⟨ht, _⟩
              · exact hg
              · cases ht
            rw [hg1] at h
            split at h
            · split at h
              · cases h
              · rename_i gc hsides
                simp only [Option.some.injEq, Prod.mk.injEq] at h
                rw [← h.1]
                have hdx : ∀ d ∈ (if rng (k + 2) < 1 / 2 then [(1 : Int), -1]
                    else [-1, 1]), d = 1 ∨ d = -1 := by
                  split <;> simp
                rcases trySides_cases W g y x _ gc hsrc hdx hsides with hg | hmov
                · exact Or.inl hg
                · obtain ⟨d', _, _, hnex, hmov⟩ := hmov
                  exact Or.inr (Or.inr ⟨((x : Int) + d').toNat, hnex, hmov⟩)
            · simp only [Option.some.injEq, Prod.mk.injEq] at h
              exact Or.inl h.1.symm
    · simp only [Option.some.injEq, Prod.mk.injEq] at h
      exact Or.inl h.1.symm

/-! ### totality: no grid access of step goes out of range on a well-formed grid -/

theorem getCell?_some_of_Dims (W H : Nat) (g : Grid) (y x : Nat) (hd : Dims W H g)
    (hy : y < H) (hx : x < W) : getCell? g y x = some (getCell g y x) :=
  (getCell?_eq_some_iff g y x _).mpr ⟨(InBnd_iff_of_Dims W H g y x hd).mpr ⟨hy, hx⟩, rfl⟩

theorem setCell?_some_of_Dims (W H : Nat) (g : Grid) (y x : Nat) (c : Cell) (hd : Dims W H g)
    (hy : y < H) (hx : x < W) : setCell? g y x c = some (setCell g y x c) :=
  (setCell?_eq_some_iff g y x c _).mpr ⟨(InBnd_iff_of_Dims W H g y x hd).mpr ⟨hy, hx⟩, rfl⟩

theorem tryDiag_isSome (W H : Nat) (g : Grid) (y x : Nat) (dirs : List (Int × Int))
    (hd : Dims W H g) (hy : y < H) (hx : x < W) :
    (tryDiag W H g y x dirs).isSome := by
  induction dirs with
  | nil => simp [tryDiag]
  | cons p rest ih =>
      obtain ⟨dx, dy⟩ := p
      simp only [tryDiag]
      split
      · rename_i hguard
        obtain ⟨h1, h2, h3⟩ := hguard
        have hnyH : ((y : Int) + dy).toNat < H := by omega
        have hnxW : ((x : Int) + dx).toNat < W := by omega
        split
        · rename_i heq
          rw [getCell?_some_of_Dims W H g _ _ hd hnyH hnxW] at heq
          cases heq
        · rename_i c heq
          split
          · split
            · rename_i heq2
              rw [setCell?_some_of_Dims W H g _ _ Cell.Sand hd hnyH hnxW] at heq2
              cases heq2
            · rename_i g1 heq2
              have hg1 : g1 = setCell g ((y : Int) + dy).toNat ((x : Int) + dx).toNat Cell.Sand :=
                ((setCell?_eq_some_iff g _ _ _ _).mp heq2).2
              split
              · rename_i heq3
                rw [hg1, setCell?_some_of_Dims W H _ y x Cell.Empty
                  (Dims_setCell W H g _ _ _ hd) hy hx] at heq3
                cases heq3
              · rfl
          · exact ih
      · exact ih

theorem trySides_isSome (W H : Nat) (g : Grid) (y x : Nat) (sides : List Int)
    (hd : Dims W H g) (hy : y < H) (hx : x < W) :
    (trySides W g y x sides).isSome := by
  induction sides with
  | nil => simp [trySides]
  | cons d rest ih =>
      simp only [trySides]
      split
      · rename_i hguard
        obtain ⟨h1, h2⟩ := hguard
        have hnxW : ((x : Int) + d).toNat < W := by omega
        split
        · rename_i heq
          rw [getCell?_some_of_Dims W H g _ _ hd hy hnxW] at heq
          cases heq
        · rename_i c heq
          split
          · split
            · rename_i heq2
              rw [setCell?_some_of_Dims W H g _ _ Cell.Sand hd hy hnxW] at heq2
              cases heq2
            · rename_i g1 heq2
              have hg1 : g1 = setCell g y ((x : Int) + d).toNat Cell.Sand :=
                ((setCell?_eq_some_iff g _ _ _ _).mp heq2).2
              rw [hg1, setCell?_some_of_Dims W H _ y x Cell.Empty
                (Dims_setCell W H g _ _ _ hd) hy hx]
              rfl
          · exact ih
      · exact ih

theorem processCell_isSome (W H : Nat) (rng : Nat → ℚ) (g : Grid) (k y x : Nat)
    (hd : Dims W H g) (hy : y + 1 < H) (hx : x < W) :
    (processCell W H rng g k y x).isSome := by
  unfold processCell
  split
  · rename_i heq
    rw [getCell?_some_of_Dims W H g y x hd (by omega) hx] at heq
    cases heq
  · rename_i c heq
    split
    · rename_i hcs
      split
      · rename_i heq2
        rw [getCell?_some_of_Dims W H g (y + 1) x hd hy hx] at heq2
        cases heq2
      · rename_i below heq2
        split
        · split
          · rename_i heq3
            rw [setCell?_some_of_Dims W H g (y + 1) x Cell.Sand hd hy hx] at heq3
            cases heq3
          · rename_i g1 heq3
            have hg1 : g1 = setCell g (y + 1) x Cell.Sand :=
              ((setCell?_eq_some_iff g _ _ _ _).mp heq3).2
            split
            · rename_i heq4
              rw [hg1, setCell?_some_of_Dims W H _ y x Cell.Empty
                (Dims_setCell W H g _ _ _ hd) (by omega) hx] at heq4
              cases heq4
            · rfl
        · split
          · rename_i heq3
            have := tryDiag_isSome W H g y x
              (if rng k < 1 / 2 then [(1, 1), (-1, 1)] else [(-1, 1), (1, 1)]) hd (by omega) hx
            rw [heq3] at this
            cases this
          · rename_i g1 moved heq3
            cases moved
            case true => rw [if_pos rfl]; rfl
            case false =>
              rw [if_neg Bool.false_ne_true]
              have hsrc : getCell g y x = Cell.Sand := by
                have h2 := ((getCell?_eq_some_iff g y x _).mp heq).2
                rw [hcs] at h2
                exact h2
              have hg1 : g1 = g := by
                have hdy : ∀ p ∈ (if rng k < 1 / 2 then [((1 : Int), (1 : Int)), (-1, 1)]
                    else [(-1, 1), (1, 1)]), p.2 = 1 := by
                  split <;> simp
                rcases tryDiag_cases W H g y x _ g1 false hsrc hdy heq3 with
                  ⟨_, hg, _⟩ | ⟨ht, _⟩
                · exact hg
                · cases ht
              split
              · split
                · rename_i heq4
                  have := trySides_isSome W H g1 y x
                    (if rng (k + 2) < 1 / 2 then [1, -1] else [-1, 1])
                    (hg1 ▸ hd) (by omega) hx
                  rw [heq4] at this
                  cases this
                · rfl
              · rfl
    · rfl

theorem processCell_dims (W H : Nat) (rng : Nat → ℚ) (g : Grid) (k y x : Nat)
    (g' : Grid) (k' : Nat) (hd : Dims W H g)
    (h : processCell W H rng g k y x = some (g', k')) : Dims W H g' := by
  rcases processCell_cases W H rng g k y x g' k' h with hg | ⟨x2, hmv⟩ | ⟨x2, _, hmv⟩
  · rw [hg]; exact hd
  · exact hmv.dims hd
  · exact hmv.dims hd

theorem processCells_isSome (W H : Nat) (rng : Nat → ℚ) (y : Nat) (xs : List Nat)
    (g : Grid) (k : Nat) (hd : Dims W H g) (hy : y + 1 < H) (hxs : ∀ a ∈ xs, a < W) :
    (processCells W H rng y xs g k).isSome := by
  induction xs generalizing g k with
  | nil => simp [processCells]
  | cons x xs ih =>
      simp only [processCells]
      split
      · rename_i heq
        have := processCell_isSome W H rng g k y x hd hy (hxs x (List.mem_cons_self _ _))
        rw [heq] at this
        cases this
      · rename_i g1 k1 heq
        exact ih g1 k1 (processCell_dims W H rng g k y x g1 k1 hd heq)
          (fun a ha => hxs a (List.mem_cons_of_mem _ ha))

theorem processCells_dims (W H : Nat) (rng : Nat → ℚ) (y : Nat) (xs : List Nat)
    (g : Grid) (k : Nat) (g' : Grid) (k' : Nat) (hd : Dims W H g)
    (h : processCells W H rng y xs g k = some (g', k')) : Dims W H g' := by
  induction xs generalizing g k with
  | nil =>
      simp only [processCells, Option.some.injEq, Prod.mk.injEq] at h
      rw [← h.1]
      exact hd
  | cons x xs ih =>
      simp only [processCells] at h
      split at h
      · cases h
      · rename_i g1 k1 heq
        exact ih g1 k1 (processCell_dims W H rng g k y x g1 k1 hd heq) h

theorem listSwap_length (xs : List Nat) (i j : Nat) :
    (listSwap xs i j).length = xs.length := by
  unfold listSwap
  rw [List.length_set, List.length_set]

theorem getD_mem_or_default {α : Type} (l : List α) (n : Nat) (d : α) :
    l.getD n d ∈ l ∨ l.getD n d = d := by
  by_cases h : n < l.length
  · rw [getD_of_lt l n d h]
    exact Or.inl (List.getElem_mem h)
  · rw [getD_of_le l n d (by omega)]
    exact Or.inr rfl

theorem mem_listSwap (xs : List Nat) (i j a : Nat) (h : a ∈ listSwap xs i j) :
    a ∈ xs ∨ a = 0 := by
  unfold listSwap at h
  rcases List.mem_or_eq_of_mem_set h with h1 | h1
  · rcases List.mem_or_eq_of_mem_set h1 with h2 | h2
    · exact Or.inl h2
    · subst h2
      rcases getD_mem_or_default xs j 0 with h3 | h3
      · exact Or.inl h3
      · exact Or.inr h3
  · subst h1
    rcases getD_mem_or_default xs i 0 with h3 | h3
    · exact Or.inl h3
    · exact Or.inr h3

theorem shuffleGo_bound (rng : Nat → ℚ) (W : Nat) (is xs : List Nat) (k : Nat)
    (hlen : xs.length = W) (hmem : ∀ a ∈ xs, a < W) :
    (shuffleGo rng is xs k).1.length = W ∧ ∀ a ∈ (shuffleGo rng is xs k).1, a < W := by
  induction is generalizing xs k with
  | nil => exact ⟨hlen, hmem⟩
  | cons i is ih =>
      simp only [shuffleGo, shuffleStep]
      apply ih
      · rw [listSwap_length]; exact hlen
      · intro a ha
        rcases mem_listSwap xs i _ a ha with h | h
        · exact hmem a h
        · subst h
          cases W with
          | zero =>
              rw [List.eq_nil_of_length_eq_zero hlen] at ha
              simp [listSwap] at ha
          | succ w => omega

theorem stepRows_isSome (W H : Nat) (rng : Nat → ℚ) (ys : List Nat) (g : Grid)
    (xs : List Nat) (k : Nat) (hd : Dims W H g) (hys : ∀ y ∈ ys, y + 1 < H)
    (hlen : xs.length = W) (hmem : ∀ a ∈ xs, a < W) :
    (stepRows W H rng ys g xs k).isSome := by
  induction ys generalizing g xs k with
  | nil => simp [stepRows]
  | cons y ys ih =>
      simp only [stepRows, shuffleRow]
      obtain ⟨hlen1, hmem1⟩ := shuffleGo_bound rng W (iList W) xs k hlen hmem
      split
      · rename_i heq
        have := processCells_isSome W H rng y (shuffleGo rng (iList W) xs k).1 g
          (shuffleGo rng (iList W) xs k).2 hd (hys y (List.mem_cons_self _ _)) hmem1
        rw [heq] at this
        cases this
      · rename_i g1 k1 heq
        exact ih g1 (shuffleGo rng (iList W) xs k).1 k1
          (processCells_dims W H rng y _ g _ g1 k1 hd heq)
          (fun a ha => hys a (List.mem_cons_of_mem _ ha)) hlen1 hmem1

theorem step_isSome (W H : Nat) (rng : Nat → ℚ) (g : Grid) (k : Nat)
    (hd : Dims W H g) : (step W H rng g k).isSome := by
  unfold step
  split
  · rename_i heq
    have := stepRows_isSome W H rng (yList H) g (List.range W) k hd
      (by
        intro y hy
        unfold yList at hy
        rw [List.mem_reverse, List.mem_range] at hy
        omega)
      (List.length_range W) (fun a ha => List.mem_range.mp ha)
    rw [heq] at this
    cases this
  · rfl

/-! ### behaviour of paint -/

theorem paintOne_eq (W H x y : Nat) (r2 : ℚ) (tool : Tool) (g : Grid) (dy dx : Int)
    (hd : Dims W H g) :
    paintOne W H x y r2 tool g dy dx =
      some (if (0 ≤ (x : Int) + dx ∧ 0 ≤ (y : Int) + dy ∧ (x : Int) + dx < (W : Int) ∧
              (y : Int) + dy < (H : Int)) ∧
            ((dx : ℚ) + 1 / 2) ^ 2 + ((dy : ℚ) + 1 / 2) ^ 2 ≤ r2
        then setCell g ((y : Int) + dy).toNat ((x : Int) + dx).toNat (toolCell tool)
        else g) := by
  unfold paintOne
  by_cases h1 : 0 ≤ (x : Int) + dx ∧ 0 ≤ (y : Int) + dy ∧ (x : Int) + dx < (W : Int) ∧
      (y : Int) + dy < (H : Int)
  · rw [if_pos h1]
    by_cases h2 : ((dx : ℚ) + 1 / 2) ^ 2 + ((dy : ℚ) + 1 / 2) ^ 2 ≤ r2
    · rw [if_pos h2, if_pos ⟨h1, h2⟩]
      exact setCell?_some_of_Dims W H g _ _ (toolCell tool) hd (by omega) (by omega)
    · rw [if_neg h2, if_neg (fun hc => h2 hc.2)]
  · rw [if_neg h1, if_neg (fun hc => h1 hc.1)]

theorem paintGo_cons (W H x y : Nat) (r2 : ℚ) (tool : Tool) (dy dx : Int)
    (rest : List (Int × Int)) (g g1 : Grid)
    (h : paintOne W H x y r2 tool g dy dx = some g1) :
    paintGo W H x y r2 tool ((dy, dx) :: rest) g = paintGo W H x y r2 tool rest g1 := by
  simp only [paintGo, h]

theorem paintGo_char (W H x y : Nat) (r2 : ℚ) (tool : Tool) (L : List (Int × Int))
    (g : Grid) (hd : Dims W H g) :
    ∃ g', paintGo W H x y r2 tool L g = some g' ∧ Dims W H g' ∧
      ∀ cy cx, cy < H → cx < W →
        getCell g' cy cx =
          if ∃ p ∈ L, (x : Int) + p.2 = (cx : Int) ∧ (y : Int) + p.1 = (cy : Int) ∧
              ((p.2 : ℚ) + 1 / 2) ^ 2 + ((p.1 : ℚ) + 1 / 2) ^ 2 ≤ r2
          then toolCell tool else getCell g cy cx := by
  induction L generalizing g with
  | nil =>
      refine ⟨g, rfl, hd, ?_⟩
      intro cy cx _ _
      simp
  | cons p rest ih =>
      obtain ⟨dy, dx⟩ := p
      have hcond := paintOne_eq W H x y r2 tool g dy dx hd
      set cnd := (0 ≤ (x : Int) + dx ∧ 0 ≤ (y : Int) + dy ∧ (x : Int) + dx < (W : Int) ∧
          (y : Int) + dy < (H : Int)) ∧
          ((dx : ℚ) + 1 / 2) ^ 2 + ((dy : ℚ) + 1 / 2) ^ 2 ≤ r2 with hcnd
      set g1 := if cnd then setCell g ((y : Int) + dy).toNat ((x : Int) + dx).toNat
          (toolCell tool) else g with hg1
      have hd1 : Dims W H g1 := by
        rw [hg1]
        split
        · exact Dims_setCell W H g _ _ _ hd
        · exact hd
      obtain ⟨g', he, hd', hchar⟩ := ih g1 hd1
      refine ⟨g', ?_, hd', ?_⟩
      · rw [paintGo_cons W H x y r2 tool dy dx rest g g1 hcond]
        exact he
      · intro cy cx hcy hcx
        rw [hchar cy cx hcy hcx]
        by_cases hrest : ∃ p ∈ rest, (x : Int) + p.2 = (cx : Int) ∧
            (y : Int) + p.1 = (cy : Int) ∧
            ((p.2 : ℚ) + 1 / 2) ^ 2 + ((p.1 : ℚ) + 1 / 2) ^ 2 ≤ r2
        · rw [if_pos hrest, if_pos ?_]
          obtain ⟨p, hp, hh⟩ := hrest
          exact ⟨p, List.mem_cons_of_mem _ hp, hh⟩
        · rw [if_neg hrest]
          by_cases hhead : (x : Int) + dx = (cx : Int) ∧ (y : Int) + dy = (cy : Int) ∧
              ((dx : ℚ) + 1 / 2) ^ 2 + ((dy : ℚ) + 1 / 2) ^ 2 ≤ r2
          · -- the head pair writes exactly this cell
            rw [if_pos ⟨(dy, dx), List.mem_cons_self _ _, hhead⟩]
            obtain ⟨hx1, hy1, hdist⟩ := hhead
            have hcndT : cnd := by
              rw [hcnd]
              refine ⟨⟨?_, ?_, ?_, ?_⟩, hdist⟩ <;> omega
            have hyt : ((y : Int) + dy).toNat = cy := by omega
            have hxt : ((x : Int) + dx).toNat = cx := by omega
            rw [hg1, if_pos hcndT, hyt, hxt]
            exact getCell_setCell_self g cy cx (toolCell tool)
              ((InBnd_iff_of_Dims W H g cy cx hd).mpr ⟨hcy, hcx⟩)
          · -- the head pair leaves this cell alone
            rw [if_neg ?_]
            · rw [hg1]
              split
              · rename_i hcndT
                apply getCell_setCell_ne
                by_contra hcon
                push_neg at hcon
                obtain ⟨⟨hg1c, hg2c, hg3c, hg4c⟩, hg5c⟩ := hcndT
                exact hhead ⟨by omega, by omega, hg5c⟩
              · rfl
            · rintro ⟨q, hq, hqh⟩
              rcases List.mem_cons.mp hq with rfl | hq'
              · exact hhead hqh
              · exact hrest ⟨q, hq', hqh⟩

theorem mem_offList (b : Nat) (d : Int) : d ∈ offList b ↔ -(b : Int) ≤ d ∧ d ≤ b := by
  unfold offList
  rw [List.mem_map]
  constructor
  · rintro ⟨n, hn, rfl⟩
    rw [List.mem_range] at hn
    omega
  · rintro ⟨h1, h2⟩
    refine ⟨(d + b).toNat, ?_, ?_⟩
    · rw [List.mem_range]; omega
    · omega

theorem mem_paintPairs (b : Nat) (dy dx : Int) :
    (dy, dx) ∈ paintPairs b ↔ (-(b : Int) ≤ dy ∧ dy ≤ b) ∧ (-(b : Int) ≤ dx ∧ dx ≤ b) := by
  unfold paintPairs
  rw [List.mem_flatMap]
  constructor
  · rintro ⟨a, ha, hmem⟩
    rw [List.mem_map] at hmem
    obtain ⟨e, he, heq⟩ := hmem
    obtain ⟨h1, h2⟩ := Prod.mk.injEq _ _ _ _ ▸ heq
    cases heq
    exact ⟨(mem_offList b dy).mp ha, (mem_offList b dx).mp he⟩
  · rintro ⟨hy, hx⟩
    exact ⟨dy, (mem_offList b dy).mpr hy,
      List.mem_map.mpr ⟨dx, (mem_offList b dx).mpr hx, rfl⟩⟩

theorem hit_iff_disc (b x y cy cx : Nat) :
    (∃ p ∈ paintPairs b, (x : Int) + p.2 = (cx : Int) ∧ (y : Int) + p.1 = (cy : Int) ∧
        ((p.2 : ℚ) + 1 / 2) ^ 2 + ((p.1 : ℚ) + 1 / 2) ^ 2 ≤ ((b : ℚ) / 2) ^ 2) ↔
      ((x : Int) - b ≤ (cx : Int) ∧ (cx : Int) ≤ x + b ∧
       (y : Int) - b ≤ (cy : Int) ∧ (cy : Int) ≤ y + b ∧
       ((cx : ℚ) - x + 1 / 2) ^ 2 + ((cy : ℚ) - y + 1 / 2) ^ 2 ≤ ((b : ℚ) / 2) ^ 2) := by
  constructor
  · rintro ⟨⟨dy, dx⟩, hmem, hx1, hy1, hdist⟩
    obtain ⟨⟨hya, hyb⟩, ⟨hxa, hxb⟩⟩ := (mem_paintPairs b dy dx).mp hmem
    have hdx : (dx : ℚ) = (cx : ℚ) - (x : ℚ) := by
      have : dx = (cx : Int) - (x : Int) := by omega
      rw [this]
      push_cast
      ring
    have hdy : (dy : ℚ) = (cy : ℚ) - (y : ℚ) := by
      have : dy = (cy : Int) - (y : Int) := by omega
      rw [this]
      push_cast
      ring
    rw [hdx, hdy] at hdist
    exact ⟨by omega, by omega, by omega, by omega, hdist⟩
  · rintro ⟨h1, h2, h3, h4, hdist⟩
    refine ⟨((cy : Int) - y, (cx : Int) - x), ?_, by omega, by omega, ?_⟩
    · rw [mem_paintPairs]
      constructor <;> constructor <;> omega
    · have hdx : (((cx : Int) - (x : Int) : Int) : ℚ) = (cx : ℚ) - (x : ℚ) := by push_cast; ring
      have hdy : (((cy : Int) - (y : Int) : Int) : ℚ) = (cy : ℚ) - (y : ℚ) := by push_cast; ring
      rw [hdx, hdy]
      exact hdist

/-! ### conservation of the sand count through one tick -/

theorem processCell_count (W H : Nat) (rng : Nat → ℚ) (g : Grid) (k y x : Nat)
    (g' : Grid) (k' : Nat) (h : processCell W H rng g k y x = some (g', k')) :
    sandCount g' = sandCount g := by
  rcases processCell_cases W H rng g k y x g' k' h with hg | ⟨x2, hmv⟩ | ⟨x2, _, hmv⟩
  · rw [hg]
  · exact hmv.sand_count
  · exact hmv.sand_count

theorem processCells_count (W H : Nat) (rng : Nat → ℚ) (y : Nat) (xs : List Nat)
    (g : Grid) (k : Nat) (g' : Grid) (k' : Nat)
    (h : processCells W H rng y xs g k = some (g', k')) :
    sandCount g' = sandCount g := by
  induction xs generalizing g k with
  | nil =>
      simp only [processCells, Option.some.injEq, Prod.mk.injEq] at h
      rw [← h.1]
  | cons x xs ih =>
      simp only [processCells] at h
      split at h
      · cases h
      · rename_i g1 k1 heq
        rw [ih g1 k1 h]
        exact processCell_count W H rng g k y x g1 k1 heq

theorem stepRows_count (W H : Nat) (rng : Nat → ℚ) (ys : List Nat) (g : Grid)
    (xs : List Nat) (k : Nat) (g' : Grid) (xs' : List Nat) (k' : Nat)
    (h : stepRows W H rng ys g xs k = some (g', xs', k')) :
    sandCount g' = sandCount g := by
  induction ys generalizing g xs k with
  | nil =>
      simp only [stepRows, Option.some.injEq, Prod.mk.injEq] at h
      rw [← h.1]
  | cons y ys ih =>
      simp only [stepRows] at h
      split at h
      · cases h
      · rename_i g1 k1 heq
        rw [ih g1 _ k1 h]
        exact processCells_count W H rng y _ g _ g1 k1 heq

theorem step_count (W H : Nat) (rng : Nat → ℚ) (g : Grid) (k : Nat)
    (g' : Grid) (k' : Nat) (h : step W H rng g k = some (g', k')) :
    sandCount g' = sandCount g := by
  unfold step at h
  split at h
  · cases h
  · rename_i g1 xs1 k1 heq
    simp only [Option.some.injEq, Prod.mk.injEq] at h
    rw [← h.1]
    exact stepRows_count W H rng (yList H) g (List.range W) k g1 xs1 k1 heq

/-! ### no grain falls more than one row in a single tick -/

theorem countFrom_congr (g1 g2 : Grid) (t : Nat) (hlen : g1.length = g2.length)
    (h : ∀ r, t ≤ r → r < g2.length → g1.getD r [] = g2.getD r []) :
    countFrom g1 t = countFrom g2 t := by
  unfold countFrom
  have hdrop : g1.drop t = g2.drop t := by
    apply List.ext_getElem
    · rw [List.length_drop, List.length_drop, hlen]
    · intro i h1 h2
      rw [List.getElem_drop, List.getElem_drop]
      have hi2 : t + i < g2.length := by
        rw [List.length_drop] at h2
        omega
      have hi1 : t + i < g1.length := by omega
      have := h (t + i) (by omega) hi2
      rw [getD_of_lt g1 _ [] hi1, getD_of_lt g2 _ [] hi2] at this
      exact this
  rw [hdrop]

theorem countFrom_succ (g : Grid) (t : Nat) :
    countFrom g t = rowSand g t + countFrom g (t + 1) := by
  unfold countFrom rowSand
  by_cases h : t < g.length
  · rw [List.drop_eq_getElem_cons h]
    unfold sandCount
    rw [List.map_cons, List.sum_cons, getD_of_lt g t [] h]
  · rw [List.drop_eq_nil_of_le (by omega), List.drop_eq_nil_of_le (by omega),
      getD_of_le g t [] (by omega)]
    simp [sandCount, rowCount]

theorem processCell_rows (W H : Nat) (rng : Nat → ℚ) (g : Grid) (k y x : Nat)
    (g' : Grid) (k' : Nat) (h : processCell W H rng g k y x = some (g', k')) :
    g'.length = g.length ∧
    (∀ r, r ≠ y → r ≠ y + 1 → g'.getD r [] = g.getD r []) ∧
    rowSand g' y + rowSand g' (y + 1) = rowSand g y + rowSand g (y + 1) := by
  rcases processCell_cases W H rng g k y x g' k' h with hg | ⟨x2, hmv⟩ | ⟨x2, _, hmv⟩
  · rw [hg]
    exact ⟨rfl, fun r _ _ => rfl, rfl⟩
  · exact ⟨hmv.len, fun r h1 h2 => hmv.getD_other r h1 h2, hmv.row_pair (Or.inr rfl)⟩
  · exact ⟨hmv.len, fun r h1 h2 => hmv.getD_other r h1 h1, hmv.row_pair (Or.inl rfl)⟩

theorem processCells_rows (W H : Nat) (rng : Nat → ℚ) (y : Nat) (xs : List Nat)
    (g : Grid) (k : Nat) (g' : Grid) (k' : Nat)
    (h : processCells W H rng y xs g k = some (g', k')) :
    g'.length = g.length ∧
    (∀ r, r ≠ y → r ≠ y + 1 → g'.getD r [] = g.getD r []) ∧
    rowSand g' y + rowSand g' (y + 1) = rowSand g y + rowSand g (y + 1) := by
  induction xs generalizing g k with
  | nil =>
      simp only [processCells, Option.some.injEq, Prod.mk.injEq] at h
      rw [← h.1]
      exact ⟨rfl, fun r _ _ => rfl, rfl⟩
  | cons x xs ih =>
      simp only [processCells] at h
      split at h
      · cases h
      · rename_i g1 k1 heq
        obtain ⟨hl1, hr1, hp1⟩ := processCell_rows W H rng g k y x g1 k1 heq
        obtain ⟨hl2, hr2, hp2⟩ := ih g1 k1 h
        refine ⟨by rw [hl2, hl1], ?_, by omega⟩
        intro r hh1 hh2
        rw [hr2 r hh1 hh2, hr1 r hh1 hh2]

theorem processCells_countFrom (W H : Nat) (rng : Nat → ℚ) (y : Nat) (xs : List Nat)
    (g : Grid) (k : Nat) (g' : Grid) (k' : Nat)
    (h : processCells W H rng y xs g k = some (g', k')) :
    (∀ t, t ≠ y + 1 → countFrom g' t = countFrom g t) ∧
    countFrom g' (y + 1) ≤ countFrom g y ∧ g'.length = g.length ∧
    (∀ r, r ≠ y → r ≠ y + 1 → g'.getD r [] = g.getD r []) := by
  obtain ⟨hlen, hrows, hpair⟩ := processCells_rows W H rng y xs g k g' k' h
  have hge : ∀ t, y + 2 ≤ t → countFrom g' t = countFrom g t := fun t ht =>
    countFrom_congr g' g t hlen (fun r hr _ => hrows r (by omega) (by omega))
  have hy : countFrom g' y = countFrom g y := by
    rw [countFrom_succ g' y, countFrom_succ g' (y + 1), countFrom_succ g y,
      countFrom_succ g (y + 1), hge (y + 1 + 1) (by omega)]
    omega
  have hlt : ∀ d t, t + d = y → countFrom g' t = countFrom g t := by
    intro d
    induction d with
    | zero =>
        intro t ht
        have heq : t = y := by omega
        rw [heq]
        exact hy
    | succ d ih =>
        intro t ht
        have hrt : rowSand g' t = rowSand g t := by
          unfold rowSand
          rw [hrows t (by omega) (by omega)]
        rw [countFrom_succ g' t, countFrom_succ g t, ih (t + 1) (by omega), hrt]
  refine ⟨?_, ?_, hlen, hrows⟩
  · intro t ht
    rcases lt_or_le t (y + 1) with hlt1 | hge1
    · exact hlt (y - t) t (by omega)
    · exact hge t (by omega)
  · rw [countFrom_succ g' (y + 1), hge (y + 1 + 1) (by omega), countFrom_succ g y,
      countFrom_succ g (y + 1)]
    omega

theorem stepRows_countFrom (W H : Nat) (rng : Nat → ℚ) (ys : List Nat) (g : Grid)
    (xs : List Nat) (k : Nat) (g' : Grid) (xs' : List Nat) (k' : Nat)
    (hys : List.Pairwise (· > ·) ys)
    (h : stepRows W H rng ys g xs k = some (g', xs', k')) :
    (∀ t, countFrom g' (t + 1) ≤ countFrom g t) ∧ g'.length = g.length ∧
    (∀ r, (∀ y ∈ ys, r ≠ y ∧ r ≠ y + 1) → g'.getD r [] = g.getD r []) := by
  induction ys generalizing g xs k with
  | nil =>
      simp only [stepRows, Option.some.injEq, Prod.mk.injEq] at h
      rw [← h.1]
      refine ⟨fun t => ?_, rfl, fun r _ => rfl⟩
      rw [countFrom_succ g t]
      omega
  | cons y ys ih =>
      simp only [stepRows] at h
      split at h
      · cases h
      · rename_i g1 k1 heq
        obtain ⟨hne, hle1, hlen1, hrows1⟩ :=
          processCells_countFrom W H rng y _ g _ g1 k1 heq
        obtain ⟨hle2, hlen2, hrows2⟩ := ih g1 _ k1 (List.Pairwise.of_cons hys) h
        have hyslt : ∀ z ∈ ys, z < y := fun z hz => List.rel_of_pairwise_cons hys hz
        refine ⟨?_, by rw [hlen2, hlen1], ?_⟩
        · intro t
          by_cases hty : t = y + 1
          · subst hty
            have e1 : countFrom g' (y + 1 + 1) = countFrom g1 (y + 1 + 1) := by
              apply countFrom_congr g' g1 (y + 1 + 1) hlen2
              intro r hr _
              apply hrows2 r
              intro z hz
              have := hyslt z hz
              exact ⟨by omega, by omega⟩
            have e2 : countFrom g1 (y + 1 + 1) = countFrom g (y + 1 + 1) :=
              hne (y + 1 + 1) (by omega)
            rw [e1, e2, countFrom_succ g (y + 1)]
            omega
          · calc countFrom g' (t + 1) ≤ countFrom g1 t := hle2 t
              _ = countFrom g t := hne t hty
        · intro r hr
          rw [hrows2 r (fun z hz => hr z (List.mem_cons_of_mem _ hz)),
            hrows1 r (hr y (List.mem_cons_self _ _)).1 (hr y (List.mem_cons_self _ _)).2]

theorem yList_pairwise (H : Nat) : List.Pairwise (· > ·) (yList H) := by
  unfold yList
  rw [List.pairwise_reverse]
  simpa using List.pairwise_lt_range (H - 1)

/-! ### behaviour on empty rows and on a single falling grain -/

theorem stepRows_cons (W H : Nat) (rng : Nat → ℚ) (y : Nat) (ys : List Nat)
    (g : Grid) (xs : List Nat) (k : Nat) :
    stepRows W H rng (y :: ys) g xs k =
      match processCells W H rng y (shuffleRow rng W xs k).1 g (shuffleRow rng W xs k).2 with
      | none => none
      | some (g1, k2) => stepRows W H rng ys g1 (shuffleRow rng W xs k).1 k2 := rfl

theorem processCell_empty (W H : Nat) (rng : Nat → ℚ) (g : Grid) (k y x : Nat)
    (hd : Dims W H g) (hy : y < H) (hx : x < W)
    (hc : getCell g y x = Cell.Empty) : processCell W H rng g k y x = some (g, k) := by
  unfold processCell
  rw [getCell?_some_of_Dims W H g y x hd hy hx, hc]
  rfl

theorem processCells_empty_row (W H : Nat) (rng : Nat → ℚ) (y : Nat) (xs : List Nat)
    (g : Grid) (k : Nat) (hd : Dims W H g) (hy : y < H) (hxs : ∀ a ∈ xs, a < W)
    (hrow : ∀ x', x' < W → getCell g y x' = Cell.Empty) :
    processCells W H rng y xs g k = some (g, k) := by
  induction xs with
  | nil => rfl
  | cons x xs ih =>
      have hx : x < W := hxs x (List.mem_cons_self _ _)
      simp only [processCells]
      rw [processCell_empty W H rng g k y x hd hy hx (hrow x hx)]
      exact ih (fun a ha => hxs a (List.mem_cons_of_mem _ ha))

theorem processCell_sand_down (W H : Nat) (rng : Nat → ℚ) (g : Grid) (k y x : Nat)
    (hd : Dims W H g) (hy : y + 1 < H) (hx : x < W)
    (hs : getCell g y x = Cell.Sand) (hb : getCell g (y + 1) x = Cell.Empty) :
    processCell W H rng g k y x =
      some (setCell (setCell g (y + 1) x Cell.Sand) y x Cell.Empty, k) := by
  unfold processCell
  split
  · rename_i heq
    rw [getCell?_some_of_Dims W H g y x hd (by omega) hx] at heq
    cases heq
  · rename_i c heq
    rw [getCell?_some_of_Dims W H g y x hd (by omega) hx, hs] at heq
    cases heq
    rw [if_pos rfl]
    split
    · rename_i heq2
      rw [getCell?_some_of_Dims W H g (y + 1) x hd hy hx] at heq2
      cases heq2
    · rename_i below heq2
      rw [getCell?_some_of_Dims W H g (y + 1) x hd hy hx, hb] at heq2
      cases heq2
      rw [if_pos rfl]
      split
      · rename_i heq3
        rw [setCell?_some_of_Dims W H g (y + 1) x Cell.Sand hd hy hx] at heq3
        cases heq3
      · rename_i g1 heq3
        rw [setCell?_some_of_Dims W H g (y + 1) x Cell.Sand hd hy hx] at heq3
        cases heq3
        split
        · rename_i heq4
          rw [setCell?_some_of_Dims W H _ y x Cell.Empty
            (Dims_setCell W H g _ _ _ hd) (by omega) hx] at heq4
          cases heq4
        · rename_i g2 heq4
          rw [setCell?_some_of_Dims W H _ y x Cell.Empty
            (Dims_setCell W H g _ _ _ hd) (by omega) hx] at heq4
          cases heq4
          rfl

theorem processCells_fall (W H : Nat) (rng : Nat → ℚ) (y : Nat) (xs : List Nat)
    (g : Grid) (k x : Nat) (hd : Dims W H g) (hy : y + 1 < H) (hx : x < W)
    (hxs : ∀ a ∈ xs, a < W) (hxmem : x ∈ xs)
    (hs : getCell g y x = Cell.Sand)
    (hrow : ∀ x', x' < W → x' ≠ x → getCell g y x' = Cell.Empty)
    (hb : getCell g (y + 1) x = Cell.Empty) :
    processCells W H rng y xs g k =
      some (setCell (setCell g (y + 1) x Cell.Sand) y x Cell.Empty, k) := by
  induction xs with
  | nil => cases hxmem
  | cons x0 xs ih =>
      simp only [processCells]
      by_cases hx0 : x0 = x
      · subst hx0
        rw [processCell_sand_down W H rng g k y x0 hd hy hx hs hb]
        have hd2 : Dims W H (setCell (setCell g (y + 1) x0 Cell.Sand) y x0 Cell.Empty) :=
          Dims_setCell W H _ _ _ _ (Dims_setCell W H g _ _ _ hd)
        have hbnd : InBnd (setCell g (y + 1) x0 Cell.Sand) y x0 :=
          (InBnd_iff_of_Dims W H _ y x0 (Dims_setCell W H g _ _ _ hd)).mpr ⟨by omega, hx⟩
        have hrow2 : ∀ x', x' < W →
            getCell (setCell (setCell g (y + 1) x0 Cell.Sand) y x0 Cell.Empty) y x' =
              Cell.Empty := by
          intro x' hx'
          by_cases hxx : x' = x0
          · subst hxx
            exact getCell_setCell_self _ y x' Cell.Empty hbnd
          · rw [getCell_setCell_ne _ y x0 _ y x' (Or.inr hxx),
              getCell_setCell_ne _ (y + 1) x0 _ y x' (Or.inl (by omega))]
            exact hrow x' hx' hxx
        exact processCells_empty_row W H rng y xs _ k hd2 (by omega)
          (fun a ha => hxs a (List.mem_cons_of_mem _ ha)) hrow2
      · have hx0W : x0 < W := hxs x0 (List.mem_cons_self _ _)
        rw [processCell_empty W H rng g k y x0 hd (by omega) hx0W (hrow x0 hx0W hx0)]
        refine ih (fun a ha => hxs a (List.mem_cons_of_mem _ ha)) ?_
        rcases List.mem_cons.mp hxmem with h1 | h1
        · exact absurd h1.symm hx0
        · exact h1

theorem floor_draw_le (r : ℚ) (i : Nat) (h1 : r < 1) :
    (⌊r * ((i : ℚ) + 1)⌋).toNat ≤ i := by
  have hnn : (0 : ℚ) < (i : ℚ) + 1 := by positivity
  have hlt := mul_lt_mul_of_pos_right h1 hnn
  rw [one_mul] at hlt
  have hfl : ⌊r * ((i : ℚ) + 1)⌋ < (i : ℤ) + 1 := by
    rw [Int.floor_lt]
    push_cast
    exact hlt
  omega

theorem mem_listSwap_of_mem (xs : List Nat) (i j a : Nat) (hi : i < xs.length)
    (hj : j < xs.length) (ha : a ∈ xs) : a ∈ listSwap xs i j := by
  obtain ⟨p, hp, hpe⟩ := List.mem_iff_getElem.mp ha
  subst hpe
  unfold listSwap
  by_cases hpi : p = i
  · subst hpi
    apply List.mem_iff_getElem.mpr
    refine ⟨j, by rw [List.length_set, List.length_set]; omega, ?_⟩
    rw [List.getElem_set_self]
    exact getD_of_lt xs p 0 hi
  · by_cases hpj : p = j
    · subst hpj
      apply List.mem_iff_getElem.mpr
      refine ⟨i, by rw [List.length_set, List.length_set]; omega, ?_⟩
      rw [List.getElem_set_ne hpi, List.getElem_set_self]
      exact getD_of_lt xs p 0 hj
    · apply List.mem_iff_getElem.mpr
      refine ⟨p, by rw [List.length_set, List.length_set]; omega, ?_⟩
      rw [List.getElem_set_ne (fun hcon => hpj hcon.symm),
        List.getElem_set_ne (fun hcon => hpi hcon.symm)]

theorem mem_iList (W i : Nat) (h : i ∈ iList W) : 1 ≤ i ∧ i < W := by
  unfold iList at h
  rw [List.mem_reverse, List.mem_range'] at h
  obtain ⟨p, hp, hpe⟩ := h
  omega

theorem shuffleGo_mem (rng : Nat → ℚ) (hr : ValidRng rng) (W : Nat) (is xs : List Nat)
    (k x : Nat) (hlen : xs.length = W) (his : ∀ i ∈ is, 1 ≤ i ∧ i < W) (hx : x ∈ xs) :
    x ∈ (shuffleGo rng is xs k).1 := by
  induction is generalizing xs k with
  | nil => exact hx
  | cons i is ih =>
      simp only [shuffleGo, shuffleStep]
      have hiW : i < W := (his i (List.mem_cons_self _ _)).2
      have hj : (⌊rng k * ((i : ℚ) + 1)⌋).toNat ≤ i := floor_draw_le _ i (hr k).2
      apply ih _ _ (by rw [listSwap_length]; exact hlen)
        (fun q hq => his q (List.mem_cons_of_mem _ hq))
      exact mem_listSwap_of_mem xs i _ x (by omega) (by omega) hx

/-- the grid holding one Sand grain at (x, m) and nothing else. -/
def singleSand (W H m x : Nat) : Grid := setCell (emptyGrid W H) m x Cell.Sand

theorem Dims_singleSand (W H m x : Nat) : Dims W H (singleSand W H m x) :=
  Dims_setCell W H _ m x Cell.Sand (Dims_emptyGrid W H)

theorem getCell_singleSand (W H m x y' x' : Nat) (hm : m < H) (hx : x < W) :
    getCell (singleSand W H m x) y' x' =
      if y' = m ∧ x' = x then Cell.Sand else Cell.Empty := by
  unfold singleSand
  by_cases h : y' = m ∧ x' = x
  · obtain ⟨rfl, rfl⟩ := h
    rw [if_pos ⟨rfl, rfl⟩]
    exact getCell_setCell_self _ y' x' Cell.Sand
      ((InBnd_iff_of_Dims W H _ y' x' (Dims_emptyGrid W H)).mpr ⟨hm, hx⟩)
  · rw [if_neg h]
    push_neg at h
    by_cases hy : y' = m
    · subst hy
      rw [getCell_setCell_ne _ y' x _ y' x' (Or.inr (h rfl))]
      exact getCell_emptyGrid W H y' x'
    · rw [getCell_setCell_ne _ m x _ y' x' (Or.inl hy)]
      exact getCell_emptyGrid W H y' x'

theorem singleSand_move (W H m x : Nat) (hm : m + 1 < H) (hx : x < W) :
    setCell (setCell (singleSand W H m x) (m + 1) x Cell.Sand) m x Cell.Empty =
      singleSand W H (m + 1) x := by
  have hdA : Dims W H (setCell (singleSand W H m x) (m + 1) x Cell.Sand) :=
    Dims_setCell W H _ _ _ _ (Dims_singleSand W H m x)
  apply gridExt W H _ _ (Dims_setCell W H _ _ _ _ hdA) (Dims_singleSand W H (m + 1) x)
  intro y' hy' x' hx'
  rw [getCell_singleSand W H (m + 1) x y' x' hm hx]
  by_cases h1 : y' = m ∧ x' = x
  · obtain ⟨h1a, h1b⟩ := h1
    rw [if_neg (by omega : ¬(y' = m + 1 ∧ x' = x)), h1a, h1b]
    exact getCell_setCell_self _ m x Cell.Empty
      ((InBnd_iff_of_Dims W H _ m x hdA).mpr ⟨by omega, hx⟩)
  · have h1' : y' ≠ m ∨ x' ≠ x := by tauto
    rw [getCell_setCell_ne _ m x _ y' x' h1']
    by_cases h2 : y' = m + 1 ∧ x' = x
    · obtain ⟨h2a, h2b⟩ := h2
      rw [if_pos ⟨h2a, h2b⟩, h2a, h2b]
      exact getCell_setCell_self _ (m + 1) x Cell.Sand
        ((InBnd_iff_of_Dims W H _ (m + 1) x (Dims_singleSand W H m x)).mpr ⟨hm, hx⟩)
    · have h2' : y' ≠ m + 1 ∨ x' ≠ x := by tauto
      rw [getCell_setCell_ne _ (m + 1) x _ y' x' h2',
        getCell_singleSand W H m x y' x' (by omega) hx, if_neg h1, if_neg h2]

theorem stepRows_single (W H : Nat) (rng : Nat → ℚ) (hr : ValidRng rng) (x : Nat)
    (hx : x < W) (ys : List Nat) :
    ∀ (xs : List Nat) (k m : Nat), List.Pairwise (· > ·) ys → (∀ z ∈ ys, z + 1 < H) →
    xs.length = W → (∀ a ∈ xs, a < W) → x ∈ xs → m < H → (m ∈ ys → m + 1 < H) →
    ∃ xs' k', stepRows W H rng ys (singleSand W H m x) xs k =
      some (singleSand W H (if m ∈ ys then m + 1 else m) x, xs', k') := by
  induction ys with
  | nil =>
      intro xs k m _ _ _ _ _ _ _
      refine ⟨xs, k, ?_⟩
      rw [if_neg (List.not_mem_nil m)]
      rfl
  | cons y ys ih =>
      intro xs k m hys hysH hlen hmem hxmem hm hmys
      rw [stepRows_cons]
      obtain ⟨hlen0, hmem0⟩ := shuffleGo_bound rng W (iList W) xs k hlen hmem
      have hlen1 : (shuffleRow rng W xs k).1.length = W := hlen0
      have hmem1 : ∀ a ∈ (shuffleRow rng W xs k).1, a < W := hmem0
      have hxmem1 : x ∈ (shuffleRow rng W xs k).1 :=
        shuffleGo_mem rng hr W (iList W) xs k x hlen (fun i hi => mem_iList W i hi) hxmem
      have hy1 : y + 1 < H := hysH y (List.mem_cons_self _ _)
      by_cases hym : y = m
      · subst hym
        rw [processCells_fall W H rng y _ (singleSand W H y x) _ x
          (Dims_singleSand W H y x) hy1 hx hmem1 hxmem1
          (by rw [getCell_singleSand W H y x y x (by omega) hx, if_pos ⟨rfl, rfl⟩])
          (fun x' hx' hxx => by
            rw [getCell_singleSand W H y x y x' (by omega) hx, if_neg (by tauto)])
          (by rw [getCell_singleSand W H y x (y + 1) x (by omega) hx, if_neg (by omega)])]
        rw [singleSand_move W H y x hy1 hx]
        have hnotmem : y + 1 ∉ ys := fun hcon => by
          have := List.rel_of_pairwise_cons hys hcon
          omega
        obtain ⟨xs2, k2, hrec⟩ := ih (shuffleRow rng W xs k).1 _ (y + 1)
          (List.Pairwise.of_cons hys) (fun z hz => hysH z (List.mem_cons_of_mem _ hz))
          hlen1 hmem1 hxmem1 (by omega) (fun hcon => absurd hcon hnotmem)
        rw [if_neg hnotmem] at hrec
        refine ⟨xs2, k2, ?_⟩
        rw [if_pos (List.mem_cons_self _ _)]
        exact hrec
      · rw [processCells_empty_row W H rng y _ (singleSand W H m x) _
          (Dims_singleSand W H m x) (by omega) hmem1
          (fun x' hx' => by
            rw [getCell_singleSand W H m x y x' hm hx, if_neg (by tauto)])]
        obtain ⟨xs2, k2, hrec⟩ := ih (shuffleRow rng W xs k).1 _ m
          (List.Pairwise.of_cons hys) (fun z hz => hysH z (List.mem_cons_of_mem _ hz))
          hlen1 hmem1 hxmem1 hm
          (fun hcon => hmys (List.mem_cons_of_mem _ hcon))
        refine ⟨xs2, k2, ?_⟩
        have hiff : (m ∈ y :: ys) ↔ (m ∈ ys) := by
          rw [List.mem_cons]
          constructor
          · rintro (h1 | h1)
            · exact absurd h1.symm hym
            · exact h1
          · exact Or.inr
        rw [if_congr hiff rfl rfl]
        exact hrec

theorem step_single (W H : Nat) (rng : Nat → ℚ) (hr : ValidRng rng) (x m k : Nat)
    (hx : x < W) (hm : m < H) :
    ∃ k', step W H rng (singleSand W H m x) k =
      some (singleSand W H (if m + 1 < H then m + 1 else m) x, k') := by
  unfold step
  have hmem_y : (m ∈ yList H) ↔ m + 1 < H := by
    unfold yList
    rw [List.mem_reverse, List.mem_range]
    omega
  obtain ⟨xs', k', hsr⟩ := stepRows_single W H rng hr x hx (yList H) (List.range W) k m
    (yList_pairwise H)
    (by
      intro z hz
      unfold yList at hz
      rw [List.mem_reverse, List.mem_range] at hz
      omega)
    (List.length_range W) (fun a ha => List.mem_range.mp ha)
    (List.mem_range.mpr hx) hm (fun hmm => hmem_y.mp hmm)
  rw [hsr]
  refine ⟨k', ?_⟩
  show some (singleSand W H (if m ∈ yList H then m + 1 else m) x, k') = _
  rw [if_congr hmem_y rfl rfl]

theorem stepN_single (W H : Nat) (rng : Nat → ℚ) (hr : ValidRng rng) (x : Nat)
    (hx : x < W) : ∀ (n m k : Nat), m + n ≤ H - 1 → m < H →
    ∃ k', stepN W H rng n (singleSand W H m x) k =
      some (singleSand W H (m + n) x, k') := by
  intro n
  induction n with
  | zero =>
      intro m k _ _
      exact ⟨k, rfl⟩
  | succ n ih =>
      intro m k hmn hm
      obtain ⟨k1, hstep⟩ := step_single W H rng hr x m k hx hm
      have hlt : m + 1 < H := by omega
      rw [if_pos hlt] at hstep
      obtain ⟨k', hrec⟩ := ih (m + 1) k1 (by omega) (by omega)
      refine ⟨k', ?_⟩
      simp only [stepN]
      rw [hstep]
      show stepN W H rng n (singleSand W H (m + 1) x) k1 = _
      rw [hrec]
      have : m + 1 + n = m + (n + 1) := by omega
      rw [this]

theorem stepRows_empty (W H : Nat) (rng : Nat → ℚ) (g : Grid) (hd : Dims W H g)
    (hrow : ∀ y x', y + 1 < H → x' < W → getCell g y x' = Cell.Empty) (ys : List Nat) :
    ∀ (xs : List Nat) (k : Nat), (∀ y ∈ ys, y + 1 < H) → xs.length = W →
    (∀ a ∈ xs, a < W) →
    ∃ xs' k', stepRows W H rng ys g xs k = some (g, xs', k') := by
  induction ys with
  | nil => exact fun xs k _ _ _ => ⟨xs, k, rfl⟩
  | cons y ys ih =>
      intro xs k hys hlen hmem
      rw [stepRows_cons]
      obtain ⟨hlen0, hmem0⟩ := shuffleGo_bound rng W (iList W) xs k hlen hmem
      have hlen1 : (shuffleRow rng W xs k).1.length = W := hlen0
      have hmem1 : ∀ a ∈ (shuffleRow rng W xs k).1, a < W := hmem0
      have hy1 : y + 1 < H := hys y (List.mem_cons_self _ _)
      rw [processCells_empty_row W H rng y _ g _ hd (by omega) hmem1
        (fun x' hx' => hrow y x' hy1 hx')]
      exact ih _ _ (fun z hz => hys z (List.mem_cons_of_mem _ hz)) hlen1 hmem1

/-! ### remaining shared helpers -/

theorem paint_spec (W H : Nat) (g : Grid) (x y b : Nat) (tool : Tool) (g' : Grid)
    (hd : Dims W H g) (hp : paint W H g x y b tool = some g') :
    Dims W H g' ∧ ∀ cy cx, cy < H → cx < W →
      getCell g' cy cx =
        if ((x : Int) - b ≤ (cx : Int) ∧ (cx : Int) ≤ x + b ∧
            (y : Int) - b ≤ (cy : Int) ∧ (cy : Int) ≤ y + b ∧
            ((cx : ℚ) - x + 1 / 2) ^ 2 + ((cy : ℚ) - y + 1 / 2) ^ 2 ≤ ((b : ℚ) / 2) ^ 2)
        then toolCell tool else getCell g cy cx := by
  obtain ⟨g'', he, hd', hchar⟩ :=
    paintGo_char W H x y (((b : ℚ) / 2) ^ 2) tool (paintPairs b) g hd
  unfold paint at hp
  rw [he] at hp
  cases hp
  refine ⟨hd', ?_⟩
  intro cy cx hcy hcx
  rw [hchar cy cx hcy hcx, if_congr (hit_iff_disc b x y cy cx) rfl rfl]

theorem quarter_le (z : Int) : (1 : ℚ) / 4 ≤ ((z : ℚ) + 1 / 2) ^ 2 := by
  have hz : (0 : ℤ) ≤ z ^ 2 + z := by
    rcases le_or_lt 0 z with h | h
    · nlinarith
    · nlinarith
  have hq : (0 : ℚ) ≤ (z : ℚ) ^ 2 + (z : ℚ) := by exact_mod_cast hz
  nlinarith

theorem paintGo_nohit (W H x y : Nat) (r2 : ℚ) (tool : Tool) (L : List (Int × Int))
    (g : Grid)
    (hno : ∀ p ∈ L, ¬(((p.2 : ℚ) + 1 / 2) ^ 2 + ((p.1 : ℚ) + 1 / 2) ^ 2 ≤ r2)) :
    paintGo W H x y r2 tool L g = some g := by
  induction L with
  | nil => rfl
  | cons p rest ih =>
      obtain ⟨dy, dx⟩ := p
      have hone : paintOne W H x y r2 tool g dy dx = some g := by
        unfold paintOne
        split
        · rename_i hdist
          exact absurd hdist (hno (dy, dx) (List.mem_cons_self _ _))
        · simp only [ite_self]
      rw [paintGo_cons W H x y r2 tool dy dx rest g g hone]
      exact ih (fun q hq => hno q (List.mem_cons_of_mem _ hq))

/-- the all-zero random stream, used as a concrete valid draw sequence. -/
def rngZero : Nat → ℚ := fun _ => 0

/-- the constant one-half random stream, a second concrete valid draw sequence. -/
def rngHalf : Nat → ℚ := fun _ => 1 / 2

theorem validRng_zero : ValidRng rngZero := fun _ => ⟨by norm_num [rngZero], by norm_num [rngZero]⟩

theorem validRng_half : ValidRng rngHalf := fun _ => ⟨by norm_num [rngHalf], by norm_num [rngHalf]⟩

/-- a grid whose single mobile grain can fall diagonally to either side. -/
def gDiag : Grid :=
  [[Cell.Empty, Cell.Sand, Cell.Empty], [Cell.Empty, Cell.Sand, Cell.Empty]]

/-- a grid whose grain at (1, 0) is blocked below and on both diagonals, with
one free same-row neighbour. -/
def gRoll : Grid :=
  [[Cell.Sand, Cell.Sand, Cell.Empty], [Cell.Sand, Cell.Sand, Cell.Sand]]

/-- the grid gRoll after the lateral roll of the grain at (1, 0) to (2, 0). -/
def gRollRes : Grid :=
  [[Cell.Sand, Cell.Empty, Cell.Sand], [Cell.Sand, Cell.Sand, Cell.Sand]]

/-- result of the rngZero run of step on gDiag: the grain rolled down-right. -/
def gDiagA : Grid :=
  [[Cell.Empty, Cell.Empty, Cell.Empty], [Cell.Empty, Cell.Sand, Cell.Sand]]

/-- result of the rngHalf run of step on gDiag: the grain rolled down-left. -/
def gDiagB : Grid :=
  [[Cell.Empty, Cell.Empty, Cell.Empty], [Cell.Sand, Cell.Sand, Cell.Empty]]

theorem processCells_cons (W H : Nat) (rng : Nat → ℚ) (y x : Nat) (xs : List Nat)
    (g : Grid) (k : Nat) :
    processCells W H rng y (x :: xs) g k =
      match processCell W H rng g k y x with
      | none => none
      | some (g1, k1) => processCells W H rng y xs g1 k1 := rfl

theorem processCell_diag_eval (W H : Nat) (rng : Nat → ℚ) (g g2 : Grid) (k y x : Nat)
    (dirs : List (Int × Int)) (hd : Dims W H g) (hy : y + 1 < H) (hx : x < W)
    (hs : getCell g y x = Cell.Sand) (hb : getCell g (y + 1) x = Cell.Sand)
    (hdirs : (if rng k < 1 / 2 then [((1 : Int), (1 : Int)), (-1, 1)]
        else [(-1, 1), (1, 1)]) = dirs)
    (hdiag : tryDiag W H g y x dirs = some (g2, true)) :
    processCell W H rng g k y x = some (g2, k + 1) := by
  unfold processCell
  rw [getCell?_some_of_Dims W H g y x hd (by omega) hx, hs,
    getCell?_some_of_Dims W H g (y + 1) x hd hy hx, hb, hdirs, hdiag]
  rfl

theorem processCell_roll_eval (W H : Nat) (rng : Nat → ℚ) (g g2 : Grid) (k y x : Nat)
    (dirs : List (Int × Int)) (sides : List Int)
    (hd : Dims W H g) (hy : y + 1 < H) (hx : x < W)
    (hs : getCell g y x = Cell.Sand) (hb : getCell g (y + 1) x = Cell.Sand)
    (hdirs : (if rng k < 1 / 2 then [((1 : Int), (1 : Int)), (-1, 1)]
        else [(-1, 1), (1, 1)]) = dirs)
    (hdiag : tryDiag W H g y x dirs = some (g, false))
    (hroll : rng (k + 1) < 5 / 100)
    (hsides : (if rng (k + 2) < 1 / 2 then [(1 : Int), -1] else [-1, 1]) = sides)
    (hmove : trySides W g y x sides = some g2) :
    processCell W H rng g k y x = some (g2, k + 3) := by
  unfold processCell
  rw [getCell?_some_of_Dims W H g y x hd (by omega) hx, hs,
    getCell?_some_of_Dims W H g (y + 1) x hd hy hx, hb, hdirs, hdiag]
  show (if rng (k + 1) < 5 / 100 then
      match trySides W g y x (if rng (k + 2) < 1 / 2 then [1, -1] else [-1, 1]) with
      | none => none
      | some g2 => some (g2, k + 3)
    else some (g, k + 2)) = some (g2, k + 3)
  rw [if_pos hroll, hsides, hmove]

theorem step_one_row (W : Nat) (rng : Nat → ℚ) (g : Grid) (k : Nat) (xs1 : List Nat)
    (k1 : Nat) (g1 : Grid) (k2 : Nat)
    (hsh : shuffleRow rng W (List.range W) k = (xs1, k1))
    (hpc : processCells W 2 rng 0 xs1 g k1 = some (g1, k2)) :
    step W 2 rng g k = some (g1, k2) := by
  unfold step
  rw [show yList 2 = [0] from rfl, stepRows_cons, hsh]
  show (match (match processCells W 2 rng 0 xs1 g k1 with
      | none => none
      | some (g1, k2) => stepRows W 2 rng [] g1 xs1 k2) with
    | none => none
    | some (g1, _, k1) => some (g1, k1)) = some (g1, k2)
  rw [hpc]
  rfl

theorem paint_zero (W H : Nat) (g : Grid) (x y : Nat) (tool : Tool) :
    paint W H g x y 0 tool = some g := by
  unfold paint
  apply paintGo_nohit
  intro p hp hcon
  have hpe : p = ((0 : Int), (0 : Int)) := by
    have he : paintPairs 0 = [(0, 0)] := by decide
    rw [he] at hp
    simpa using hp
  subst hpe
  norm_num at hcon

/-! ### claim theorems -/

/-- C1: mass conservation. For every starting grid, every random draw stream and
draw position, and any number of step calls, a completed run of World::step
preserves the total count of Sand cells: every transition inside step is a move
of one grain into a previously Empty cell, never a creation or deletion. -/
theorem mass_conservation (W H n k : Nat) (rng : Nat → ℚ) (g g' : Grid) (k' : Nat)
    (h : stepN W H rng n g k = some (g', k')) : sandCount g' = sandCount g := by
  induction n generalizing g k with
  | zero =>
      simp only [stepN, Option.some.injEq, Prod.mk.injEq] at h
      rw [← h.1]
  | succ n ih =>
      simp only [stepN] at h
      split at h
      · cases h
      · rename_i g1 k1 heq
        rw [ih _ _ h]
        exact step_count W H rng g k g1 k1 heq

theorem mass_conservation_witness :
    sandCount (singleSand 2 2 1 0) = sandCount (singleSand 2 2 0 0) := by
  obtain ⟨k', h⟩ := step_single 2 2 rngZero validRng_zero 0 0 0 (by omega) (by omega)
  rw [if_pos (by omega : 0 + 1 < 2)] at h
  refine mass_conservation 2 2 1 0 rngZero (singleSand 2 2 0 0) (singleSand 2 2 1 0) k' ?_
  show (match step 2 2 rngZero (singleSand 2 2 0 0) 0 with
      | none => none
      | some (g1, k1) => stepN 2 2 rngZero 0 g1 k1) = some (singleSand 2 2 1 0, k')
  rw [h]
  rfl

/-- C2 counterexample: started from equal grids, two runs of step with two
different valid random streams produce different grids, so the resulting grid
is not determined by the grid state alone. -/
theorem step_depends_on_randomness :
    ValidRng rngZero ∧ ValidRng rngHalf ∧
      Option.map Prod.fst (step 3 2 rngZero gDiag 0) ≠
        Option.map Prod.fst (step 3 2 rngHalf gDiag 0) := by
  refine ⟨validRng_zero, validRng_half, ?_⟩
  have hswA : ∀ (xs : List Nat) (k i : Nat),
      shuffleStep rngZero xs k i = (listSwap xs i 0, k + 1) := by
    intro xs k i
    unfold shuffleStep rngZero
    norm_num
  have hshA : shuffleRow rngZero 3 (List.range 3) 0 = ([1, 2, 0], 2) := by
    show shuffleGo rngZero (iList 3) (List.range 3) 0 = ([1, 2, 0], 2)
    rw [show iList 3 = [2, 1] from rfl, show List.range 3 = [0, 1, 2] from rfl]
    simp only [shuffleGo, hswA]
    decide
  have hc1 : processCell 3 2 rngZero gDiag 2 0 1 = some (gDiagA, 2 + 1) :=
    processCell_diag_eval 3 2 rngZero gDiag gDiagA 2 0 1 [(1, 1), (-1, 1)]
      (by decide) (by omega) (by omega) (by decide) (by decide)
      (by rw [if_pos (show rngZero 2 < 1 / 2 by norm_num [rngZero])])
      (by decide)
  have hcellsA : processCells 3 2 rngZero 0 [1, 2, 0] gDiag 2 = some (gDiagA, 3) := by
    rw [processCells_cons, hc1]
    show processCells 3 2 rngZero 0 [2, 0] gDiagA 3 = some (gDiagA, 3)
    rw [processCells_cons,
      processCell_empty 3 2 rngZero gDiagA 3 0 2 (by decide) (by omega) (by omega) (by decide)]
    show processCells 3 2 rngZero 0 [0] gDiagA 3 = some (gDiagA, 3)
    rw [processCells_cons,
      processCell_empty 3 2 rngZero gDiagA 3 0 0 (by decide) (by omega) (by omega) (by decide)]
    rfl
  have hA : step 3 2 rngZero gDiag 0 = some (gDiagA, 3) :=
    step_one_row 3 rngZero gDiag 0 [1, 2, 0] 2 gDiagA 3 hshA hcellsA
  have hswB2 : ∀ (xs : List Nat) (k : Nat),
      shuffleStep rngHalf xs k 2 = (listSwap xs 2 1, k + 1) := by
    intro xs k
    unfold shuffleStep rngHalf
    norm_num
  have hswB1 : ∀ (xs : List Nat) (k : Nat),
      shuffleStep rngHalf xs k 1 = (listSwap xs 1 1, k + 1) := by
    intro xs k
    unfold shuffleStep rngHalf
    norm_num
  have hshB : shuffleRow rngHalf 3 (List.range 3) 0 = ([0, 2, 1], 2) := by
    show shuffleGo rngHalf (iList 3) (List.range 3) 0 = ([0, 2, 1], 2)
    rw [show iList 3 = [2, 1] from rfl, show List.range 3 = [0, 1, 2] from rfl]
    simp only [shuffleGo, hswB2, hswB1]
    decide
  have hc1B : processCell 3 2 rngHalf gDiag 2 0 1 = some (gDiagB, 2 + 1) :=
    processCell_diag_eval 3 2 rngHalf gDiag gDiagB 2 0 1 [(-1, 1), (1, 1)]
      (by decide) (by omega) (by omega) (by decide) (by decide)
      (by rw [if_neg (show ¬(rngHalf 2 < 1 / 2) by norm_num [rngHalf])])
      (by decide)
  have hcellsB : processCells 3 2 rngHalf 0 [0, 2, 1] gDiag 2 = some (gDiagB, 3) := by
    rw [processCells_cons,
      processCell_empty 3 2 rngHalf gDiag 2 0 0 (by decide) (by omega) (by omega) (by decide)]
    show processCells 3 2 rngHalf 0 [2, 1] gDiag 2 = some (gDiagB, 3)
    rw [processCells_cons,
      processCell_empty 3 2 rngHalf gDiag 2 0 2 (by decide) (by omega) (by omega) (by decide)]
    show processCells 3 2 rngHalf 0 [1] gDiag 2 = some (gDiagB, 3)
    rw [processCells_cons, hc1B]
    rfl
  have hB : step 3 2 rngHalf gDiag 0 = some (gDiagB, 3) :=
    step_one_row 3 rngHalf gDiag 0 [0, 2, 1] 2 gDiagB 3 hshB hcellsB
  rw [hA, hB]
  decide

/-- C2 (amended): step is a pure, total function of the grid state and the
random draw stream, and paint of the grid state and its arguments: two runs
from equal grids with equal random streams (and, for paint, equal arguments)
produce equal results. -/
theorem purity_amended (W H k : Nat) (rng1 rng2 : Nat → ℚ) (g1 g2 : Grid)
    (x y b : Nat) (tool : Tool) (hg : g1 = g2) (hrng : ∀ n, rng1 n = rng2 n) :
    step W H rng1 g1 k = step W H rng2 g2 k ∧
      paint W H g1 x y b tool = paint W H g2 x y b tool := by
  have hr : rng1 = rng2 := funext hrng
  subst hr
  subst hg
  exact ⟨rfl, rfl⟩

theorem purity_amended_witness :
    step 3 2 rngZero gDiag 0 = step 3 2 rngZero gDiag 0 ∧
      paint 3 2 gDiag 1 1 2 Tool.Sand = paint 3 2 gDiag 1 1 2 Tool.Sand :=
  purity_amended 3 2 0 rngZero rngZero gDiag gDiag 1 1 2 Tool.Sand rfl (fun _ => rfl)

/-- C3: paint characterisation. On a well-formed grid, paint succeeds and sets
an in-bounds cell (cx, cy) to the selected material exactly when the cell lies
in the bounding box [x - brush, x + brush] times [y - brush, y + brush] and its
offsets (dx, dy) from the centre satisfy
(dx + 1/2)^2 + (dy + 1/2)^2 <= (brush/2)^2; every other cell keeps its previous
value, and the dimensions are preserved. -/
theorem paint_characterization (W H : Nat) (g : Grid) (x y b : Nat) (tool : Tool)
    (g' : Grid) (hd : Dims W H g) (hp : paint W H g x y b tool = some g') :
    Dims W H g' ∧ ∀ cy cx, cy < H → cx < W →
      getCell g' cy cx =
        if ((x : Int) - b ≤ (cx : Int) ∧ (cx : Int) ≤ x + b ∧
            (y : Int) - b ≤ (cy : Int) ∧ (cy : Int) ≤ y + b ∧
            ((cx : ℚ) - x + 1 / 2) ^ 2 + ((cy : ℚ) - y + 1 / 2) ^ 2 ≤ ((b : ℚ) / 2) ^ 2)
        then toolCell tool else getCell g cy cx :=
  paint_spec W H g x y b tool g' hd hp

theorem paint_characterization_witness : getCell (emptyGrid 2 2) 0 0 = Cell.Empty := by
  have h := paint_characterization 2 2 (emptyGrid 2 2) 0 0 0 Tool.Sand (emptyGrid 2 2)
    (Dims_emptyGrid 2 2) (paint_zero 2 2 (emptyGrid 2 2) 0 0 Tool.Sand)
  rw [h.2 0 0 (by omega) (by omega), if_neg (by norm_num)]
  exact getCell_emptyGrid 2 2 0 0

/-- C4: paint is idempotent. Repeating a successful paint call with the same
centre, brush and tool on its own result gives the same grid again; in
particular this holds for the erase tool. -/
theorem paint_idempotent (W H : Nat) (g : Grid) (x y b : Nat) (tool : Tool)
    (g' : Grid) (hd : Dims W H g) (hp : paint W H g x y b tool = some g') :
    paint W H g' x y b tool = some g' := by
  obtain ⟨hd', hchar⟩ := paint_spec W H g x y b tool g' hd hp
  obtain ⟨g'', he, hd'', hchar2⟩ :=
    paintGo_char W H x y (((b : ℚ) / 2) ^ 2) tool (paintPairs b) g' hd'
  have hgeq : g'' = g' := by
    apply gridExt W H g'' g' hd'' hd'
    intro cy hcy cx hcx
    rw [hchar2 cy cx hcy hcx, if_congr (hit_iff_disc b x y cy cx) rfl rfl,
      hchar cy cx hcy hcx]
    split_ifs with h1 <;> rfl
  unfold paint
  rw [he, hgeq]

theorem paint_idempotent_witness :
    paint 2 2 (emptyGrid 2 2) 1 0 0 Tool.Erase = some (emptyGrid 2 2) :=
  paint_idempotent 2 2 (emptyGrid 2 2) 1 0 0 Tool.Erase (emptyGrid 2 2)
    (Dims_emptyGrid 2 2) (paint_zero 2 2 (emptyGrid 2 2) 1 0 Tool.Erase)

/-- C5: bounds safety. On a well-formed grid, with any valid random stream and
any paint arguments (the centre may lie outside the grid), neither step nor
paint ever indexes the grid out of range: both return some rather than the
none that models a panicking access. -/
theorem bounds_safety (W H k x y b : Nat) (rng : Nat → ℚ) (g : Grid) (tool : Tool)
    (hd : Dims W H g) (hr : ValidRng rng) :
    (step W H rng g k).isSome ∧ (paint W H g x y b tool).isSome := by
  refine ⟨step_isSome W H rng g k hd, ?_⟩
  obtain ⟨g', he, _, _⟩ :=
    paintGo_char W H x y (((b : ℚ) / 2) ^ 2) tool (paintPairs b) g hd
  unfold paint
  rw [he]
  rfl

theorem bounds_safety_witness :
    (step 2 2 rngZero [[Cell.Sand, Cell.Sand], [Cell.Sand, Cell.Sand]] 0).isSome ∧
      (paint 2 2 [[Cell.Sand, Cell.Sand], [Cell.Sand, Cell.Sand]] 5 0 3 Tool.Erase).isSome :=
  bounds_safety 2 2 0 5 0 3 rngZero [[Cell.Sand, Cell.Sand], [Cell.Sand, Cell.Sand]]
    Tool.Erase (by decide) validRng_zero

/-- C6: no grain falls more than one row per tick. step processes rows from the
bottom upward, excluding the last row, so a grain moved down is not moved again
within the same tick; counted anonymously, the Sand in rows t + 1 and below
after one step call is bounded by the Sand in rows t and below before it, for
every threshold t. -/
theorem no_double_fall (W H : Nat) (rng : Nat → ℚ) (g : Grid) (k : Nat)
    (g' : Grid) (k' : Nat) (h : step W H rng g k = some (g', k')) :
    ∀ t, countFrom g' (t + 1) ≤ countFrom g t := by
  unfold step at h
  split at h
  · cases h
  · rename_i g1 xs1 k1 heq
    simp only [Option.some.injEq, Prod.mk.injEq] at h
    rw [← h.1]
    exact (stepRows_countFrom W H rng (yList H) g (List.range W) k g1 xs1 k1
      (yList_pairwise H) heq).1

theorem no_double_fall_witness :
    countFrom (singleSand 2 2 1 0) 1 ≤ countFrom (singleSand 2 2 0 0) 0 := by
  obtain ⟨k', h⟩ := step_single 2 2 rngZero validRng_zero 0 0 0 (by omega) (by omega)
  rw [if_pos (by omega : 0 + 1 < 2)] at h
  exact no_double_fall 2 2 rngZero (singleSand 2 2 0 0) 0 (singleSand 2 2 1 0) k' h 0

/-- C7: settling. A well-formed grid whose Sand lies only in the bottom row
(every cell strictly above the bottom row is Empty) is a fixed point of step
for every valid random stream and draw position. -/
theorem bottom_row_fixed_point (W H : Nat) (rng : Nat → ℚ) (g : Grid) (k : Nat)
    (hr : ValidRng rng) (hd : Dims W H g)
    (hrow : ∀ y x', y + 1 < H → x' < W → getCell g y x' = Cell.Empty) :
    (step W H rng g k).map Prod.fst = some g := by
  unfold step
  obtain ⟨xs', k', he⟩ := stepRows_empty W H rng g hd hrow (yList H) (List.range W) k
    (by
      intro y hy
      unfold yList at hy
      rw [List.mem_reverse, List.mem_range] at hy
      omega)
    (List.length_range W) (fun a ha => List.mem_range.mp ha)
  rw [he]
  rfl

theorem bottom_row_fixed_point_witness :
    (step 2 2 rngZero [[Cell.Empty, Cell.Empty], [Cell.Sand, Cell.Sand]] 0).map
      Prod.fst = some [[Cell.Empty, Cell.Empty], [Cell.Sand, Cell.Sand]] :=
  bottom_row_fixed_point 2 2 rngZero
    [[Cell.Empty, Cell.Empty], [Cell.Sand, Cell.Sand]] 0 validRng_zero (by decide)
    (by
      intro y x' hy hx'
      have hy0 : y = 0 := by omega
      subst hy0
      interval_cases x' <;> rfl)

/-- C8: single-column fall. Starting from the grid holding exactly one Sand
grain at (x, 0), for every valid random stream, H - 1 successive step calls
leave the single grain at (x, H - 1), and one further step call leaves that
grid unchanged. -/
theorem single_column_fall (W H : Nat) (rng : Nat → ℚ) (x k : Nat)
    (hr : ValidRng rng) (hx : x < W) (hH : 0 < H) :
    (∃ k', stepN W H rng (H - 1) (singleSand W H 0 x) k =
        some (singleSand W H (H - 1) x, k')) ∧
      ∀ k2, (step W H rng (singleSand W H (H - 1) x) k2).map Prod.fst =
        some (singleSand W H (H - 1) x) := by
  constructor
  · obtain ⟨k', h⟩ := stepN_single W H rng hr x hx (H - 1) 0 k (by omega) hH
    rw [Nat.zero_add] at h
    exact ⟨k', h⟩
  · intro k2
    obtain ⟨k3, h⟩ := step_single W H rng hr x (H - 1) k2 hx (by omega)
    rw [if_neg (by omega : ¬(H - 1 + 1 < H))] at h
    rw [h]
    rfl

theorem single_column_fall_witness :
    (stepN 2 3 rngZero (3 - 1) (singleSand 2 3 0 1) 0).map Prod.fst =
      some (singleSand 2 3 (3 - 1) 1) := by
  obtain ⟨⟨k', h⟩, _⟩ := single_column_fall 2 3 rngZero 1 0 validRng_zero
    (by omega) (by omega)
  rw [h]
  rfl

/-- C9: lateral-roll guard. If processing cell (y, x) moved its Sand grain
laterally -- the grain left (y, x) while the row below stayed unchanged -- then
at the moment the cell was examined the cell directly below was not Empty and
each diagonal-below neighbour was either out of bounds or not Empty: the roll
never fires for a grain that could move down or diagonally. -/
theorem lateral_roll_guard (W H : Nat) (rng : Nat → ℚ) (g : Grid) (k y x : Nat)
    (g' : Grid) (k' : Nat)
    (hp : processCell W H rng g k y x = some (g', k'))
    (hsrc : getCell g y x = Cell.Sand)
    (hgone : getCell g' y x = Cell.Empty)
    (hrow : g'.getD (y + 1) [] = g.getD (y + 1) []) :
    getCell g (y + 1) x ≠ Cell.Empty ∧
      ∀ dx : Int, (dx = -1 ∨ dx = 1) →
        ¬(0 ≤ (x : Int) + dx ∧ (x : Int) + dx < (W : Int) ∧ (y : Int) + 1 < (H : Int)) ∨
          getCell g (y + 1) ((x : Int) + dx).toNat ≠ Cell.Empty := by
  unfold processCell at hp
  split at hp
  · cases hp
  · rename_i c heq
    have hcval : getCell g y x = c := ((getCell?_eq_some_iff g y x c).mp heq).2
    split at hp
    · rename_i hcs
      split at hp
      · cases hp
      · rename_i below hbeq
        have hbval : getCell g (y + 1) x = below :=
          ((getCell?_eq_some_iff g (y + 1) x below).mp hbeq).2
        split at hp
        · -- the grain moved straight down, contradicting the unchanged row below
          rename_i hbe
          exfalso
          split at hp
          · cases hp
          · rename_i ga hga
            split at hp
            · cases hp
            · rename_i gb hgb
              simp only [Option.some.injEq, Prod.mk.injEq] at hp
              obtain ⟨hba, hga'⟩ := (setCell?_eq_some_iff g _ _ _ _).mp hga
              obtain ⟨hbb, hgb'⟩ := (setCell?_eq_some_iff ga _ _ _ _).mp hgb
              subst hga'
              have hg'eq : g' = setCell (setCell g (y + 1) x Cell.Sand) y x Cell.Empty := by
                rw [← hp.1]
                exact hgb'
              have hsand : getCell g' (y + 1) x = Cell.Sand := by
                rw [hg'eq, getCell_setCell_ne _ y x _ (y + 1) x (Or.inl (by omega))]
                exact getCell_setCell_self g (y + 1) x Cell.Sand hba
              have hemp : getCell g' (y + 1) x = Cell.Empty := by
                unfold getCell
                rw [hrow]
                rw [hbe] at hbval
                exact hbval
              rw [hsand] at hemp
              cases hemp
        · rename_i hbe
          have hdy : ∀ p ∈ (if rng k < 1 / 2 then [((1 : Int), (1 : Int)), (-1, 1)]
              else [(-1, 1), (1, 1)]), p.2 = 1 := by
            split <;> simp
          split at hp
          · cases hp
          · rename_i g1 moved hdiag
            cases moved
            case true =>
              -- the grain moved diagonally, contradicting the unchanged row below
              exfalso
              rw [if_pos rfl] at hp
              simp only [Option.some.injEq, Prod.mk.injEq] at hp
              rcases tryDiag_cases W H g y x _ g1 true hsrc hdy hdiag with
                ⟨hf, _, _⟩ | ⟨_, dx', hmem, hcond, hmov⟩
              · cases hf
              · obtain ⟨_, hemp2, _, hbnd2, _, hmoveq⟩ := hmov
                have hg'eq : g' =
                    setCell (setCell g (y + 1) ((x : Int) + dx').toNat Cell.Sand)
                      y x Cell.Empty := by
                  rw [← hp.1]
                  exact hmoveq
                have hsand : getCell g' (y + 1) ((x : Int) + dx').toNat = Cell.Sand := by
                  rw [hg'eq, getCell_setCell_ne _ y x _ (y + 1) _ (Or.inl (by omega))]
                  exact getCell_setCell_self g _ _ Cell.Sand hbnd2
                have hemp3 : getCell g' (y + 1) ((x : Int) + dx').toNat = Cell.Empty := by
                  unfold getCell
                  rw [hrow]
                  exact hemp2
                rw [hsand] at hemp3
                cases hemp3
            case false =>
              -- vertically and diagonally blocked: exactly the guard of the roll
              rcases tryDiag_cases W H g y x _ g1 false hsrc hdy hdiag with
                ⟨_, hgg, hall⟩ | ⟨ht, _⟩
              · refine ⟨by rw [hbval]; exact hbe, ?_⟩
                intro dx hdx
                have hmem : (dx, (1 : Int)) ∈ (if rng k < 1 / 2 then
                    [((1 : Int), (1 : Int)), (-1, 1)] else [(-1, 1), (1, 1)]) := by
                  rcases hdx with rfl | rfl <;> split <;> simp
                have hthis := hall (dx, 1) hmem
                have htn : ((y : Int) + 1).toNat = y + 1 := by omega
                rw [htn] at hthis
                exact hthis
              · cases ht
    · rename_i hcs
      exact absurd (hcval.symm.trans hsrc) hcs

theorem lateral_roll_guard_witness : getCell gRoll 1 1 ≠ Cell.Empty := by
  have hp : processCell 3 2 rngZero gRoll 0 0 1 = some (gRollRes, 0 + 3) :=
    processCell_roll_eval 3 2 rngZero gRoll gRollRes 0 0 1 [(1, 1), (-1, 1)] [1, -1]
      (by decide) (by omega) (by omega) (by decide) (by decide)
      (by rw [if_pos (show rngZero 0 < 1 / 2 by norm_num [rngZero])])
      (by decide)
      (by norm_num [rngZero])
      (by rw [if_pos (show rngZero 2 < 1 / 2 by norm_num [rngZero])])
      (by decide)
  exact (lateral_roll_guard 3 2 rngZero gRoll 0 0 1 gRollRes (0 + 3) hp (by decide)
    (by decide) (by decide)).1

/-- C10: tiny-brush no-op. With brush 0 or 1 no integer offset pair passes the
disc test, so paint leaves every cell unchanged -- the centre cell included --
for every grid, centre and tool. -/
theorem tiny_brush_noop (W H : Nat) (g : Grid) (x y b : Nat) (tool : Tool)
    (hb : b ≤ 1) : paint W H g x y b tool = some g := by
  unfold paint
  apply paintGo_nohit
  intro p _ hcon
  have h1 : (1 : ℚ) / 4 ≤ ((p.2 : ℚ) + 1 / 2) ^ 2 := quarter_le p.2
  have h2 : (1 : ℚ) / 4 ≤ ((p.1 : ℚ) + 1 / 2) ^ 2 := quarter_le p.1
  have hb2 : ((b : ℚ) / 2) ^ 2 ≤ 1 / 4 := by
    interval_cases b
    · norm_num
    · norm_num
  linarith

theorem tiny_brush_noop_witness :
    paint 2 2 [[Cell.Sand, Cell.Empty], [Cell.Empty, Cell.Sand]] 1 1 1 Tool.Sand =
      some [[Cell.Sand, Cell.Empty], [Cell.Empty, Cell.Sand]] :=
  tiny_brush_noop 2 2 [[Cell.Sand, Cell.Empty], [Cell.Empty, Cell.Sand]] 1 1 1
    Tool.Sand (by omega)

end Particulate
